import Mathlib

/-!
# lib/utils.js of react-native-sylkrtc.js

A shallow embedding of the helper functions of `lib/utils.js`
(`mungeSdp`, `getMediaDirections`, `createLocalSdp`, `closeMediaStream`)
together with the JavaScript primitives they call, and theorems about them.

Modelling decisions, each visible in a definition below:

* the parsed SDP is the structure `sdp-transform` builds; only the fields the
  source reads or writes are kept (`type`, `payloads`, `rtp`, `fmtp`,
  `rtcpFb`, `direction`);
* `sdp-transform` turns every captured field whose text is the canonical text
  of a number into that number and leaves any other text a string, and a
  field that was not captured is undefined: the payload and codec of an
  `rtpmap` line, the payload and config of an `fmtp` line, the payload of an
  `rtcp-fb` line and the payload list of an `m=` line are `Scalar`s.  A
  number is held as the text `String` gives for it, which is the text the
  parser read;
* the media type is kept as its text (for a number or undefined, the text
  `String` gives): the source only compares it with `'video'` and uses it as
  a property name, and both see such a value as its text; the type of an
  `rtcp-fb` entry, which the source never reads, is kept as its text too;
* `parseInt` is exact below 2^53; what it returns for a longer numeral, and
  case folding, are left to the `Engine`, about which nothing is assumed;
* the SDP parser and writer (`transform.parse`, `transform.write`) and the
  peer connection are parameters;
* `directions` in `getMediaDirections` is a plain object: it has the own
  properties assigned to it and inherits those of `Object.prototype`;
* a promise chain is the sequence of its steps, each of which succeeds or
  rejects; the uses of the peer connection are recorded in order.
-/

namespace SylkUtils

/-! ## JavaScript primitives -/

/-- A field as `sdp-transform` leaves it: a number (held as its text, so
`num "96"` is the number 96 and `num "NaN"` is NaN), a string, or undefined. -/
inductive Scalar where
  | num (text : String)
  | str (s : String)
  | undefined
  deriving DecidableEq, Repr

/-- An exception raised while the source runs: a TypeError or ReferenceError
of the engine, labelled with the expression or name whose evaluation raised
it, or an error a collaborator raised, with its text. -/
inductive JsError where
  | typeError (expression : String)
  | referenceError (name : String)
  | thrown (text : String)
  deriving DecidableEq, Repr

deriving instance DecidableEq for Except

/-- What the model leaves to the JavaScript engine: `toLowerCase`, and the
text of the number `parseInt` returns for a numeral of 2^53 or more (given
whether a minus sign stood before its digits), where doubles are not exact. -/
structure Engine where
  toLowerCase : String → String
  bigNumberText : Bool → List Char → List Char

/-- The decimal digit `d` as a character. -/
def digitChar (d : Nat) : Char := Char.ofNat (48 + d)

/-- The decimal digits of `n`, most significant first, in front of `acc`. -/
def natDigits : Nat → Nat → List Char → List Char
  | 0, _, acc => acc
  | fuel + 1, n, acc =>
    if n < 10 then digitChar n :: acc
    else natDigits fuel (n / 10) (digitChar (n % 10) :: acc)

/-- The characters of `String(n)` for a non-negative integer `n` below 10^21. -/
def natChars (n : Nat) : List Char := natDigits (n + 1) n []

/-- The text of the number `n`. -/
def natText (n : Nat) : String := String.mk (natChars n)

/-- The JavaScript conversion `String(v)` of a scalar. -/
def jsString : Scalar → String
  | Scalar.num text => text
  | Scalar.str s => s
  | Scalar.undefined => "undefined"

/-- Whether a scalar is truthy: every number but 0 and NaN, every string but
the empty one. -/
def truthy : Scalar → Bool
  | Scalar.num text => decide (text ≠ "0" ∧ text ≠ "NaN")
  | Scalar.str s => decide (s ≠ "")
  | Scalar.undefined => false

/-- The strict equality `a === b` of two scalars: values of different types
are different, and NaN equals nothing, itself included. -/
def strictEquals : Scalar → Scalar → Bool
  | Scalar.num s, Scalar.num t => decide (s = t ∧ s ≠ "NaN")
  | Scalar.str s, Scalar.str t => decide (s = t)
  | Scalar.undefined, Scalar.undefined => true
  | _, _ => false

/-- The value of a run of decimal digits. -/
def digitsValue (ds : List Char) : Nat :=
  ds.foldl (fun a c => 10 * a + (c.toNat - 48)) 0

/-- The characters `parseInt` skips at the start (WhiteSpace and LineTerminator). -/
def jsWhiteSpace (c : Char) : Bool :=
  let n := c.toNat
  n = 9 || n = 10 || n = 11 || n = 12 || n = 13 || n = 32 || n = 160 || n = 5760
    || (8192 ≤ n && n ≤ 8202) || n = 8232 || n = 8233 || n = 8239 || n = 8287
    || n = 12288 || n = 65279

/-- The digits `parseInt(_, 10)` reads: what is left after leading white space
and one sign, with whether the sign was a minus. -/
def parseIntBody (cs : List Char) : Bool × List Char :=
  match cs.dropWhile jsWhiteSpace with
  | '-' :: r => (true, r.takeWhile Char.isDigit)
  | '+' :: r => (false, r.takeWhile Char.isDigit)
  | r => (false, r.takeWhile Char.isDigit)

/-- The largest power of two below which every integer is a double: 2^53. -/
def exactLimit : Nat := 9007199254740992

/-- The JavaScript call `parseInt(p, 10)`, the number it returns held as its
text: `NaN` without digits, the integer itself below 2^53 (`-0` reads `0`),
and what the engine makes of a longer numeral.  Two numbers other than NaN
are strictly equal exactly when their texts are equal. -/
def parseInt (engine : Engine) (p : List Char) : List Char :=
  match parseIntBody p with
  | (_, []) => ['N', 'a', 'N']
  | (negative, d :: ds) =>
    if digitsValue (d :: ds) < exactLimit then
      if negative = true ∧ digitsValue (d :: ds) ≠ 0 then '-' :: natChars (digitsValue (d :: ds))
      else natChars (digitsValue (d :: ds))
    else engine.bigNumberText negative (d :: ds)

/-- Puts `c` in front of the first piece of a split. -/
def consFirst (c : Char) : List (List Char) → List (List Char)
  | [] => [[c]]
  | w :: ws => (c :: w) :: ws

/-- The JavaScript call `s.split(' ')` on the characters of `s`. -/
def splitChars : List Char → List (List Char)
  | [] => [[]]
  | c :: cs => if c = ' ' then [] :: splitChars cs else consFirst c (splitChars cs)

/-- The JavaScript call `xs.join(' ')` on the texts of the elements. -/
def joinChars : List (List Char) → List Char
  | [] => []
  | [w] => w
  | w :: v :: ws => w ++ ' ' :: joinChars (v :: ws)

/-- The first position of `x` in `xs`, or `-1`. -/
def indexOf {α : Type} [DecidableEq α] (x : α) : List α → Int
  | [] => -1
  | y :: ys => if y = x then 0 else
      match indexOf x ys with
      | Int.negSucc _ => -1
      | Int.ofNat k => Int.ofNat (k + 1)

/-- The JavaScript call `payloadTypes.indexOf(payloadType)` on an array of
numbers held as texts: a string or undefined is strictly equal to no number,
and neither is NaN. -/
def indexOfNumber (payloadType : Scalar) (payloadTypes : List (List Char)) : Int :=
  match payloadType with
  | Scalar.num text => if text = "NaN" then -1 else indexOf text.data payloadTypes
  | Scalar.str _ => -1
  | Scalar.undefined => -1

/-- The JavaScript call `xs.splice(start, 1)`, as the array it leaves: a
negative `start` counts from the end. -/
def splice1 {α : Type} (xs : List α) (start : Int) : List α :=
  let len : Int := xs.length
  let k : Int := if start < 0 then max (len + start) 0 else min start len
  xs.eraseIdx k.toNat

/-- Whether `hay` starts with `needle`. -/
def startsWith : List Char → List Char → Bool
  | [], _ => true
  | _ :: _, [] => false
  | a :: as, b :: bs => a == b && startsWith as bs

/-- The JavaScript test `hay.indexOf(needle) !== -1` on strings. -/
def includes (needle : List Char) : List Char → Bool
  | [] => needle.isEmpty
  | c :: cs => startsWith needle (c :: cs) || includes needle cs

/-! ## The parsed SDP -/

/-- An `a=rtpmap` entry of a media section. -/
structure Rtp where
  payload : Scalar
  codec : Scalar
  deriving DecidableEq, Repr

/-- An `a=fmtp` entry of a media section. -/
structure Fmtp where
  payload : Scalar
  config : Scalar
  deriving DecidableEq, Repr

/-- An `a=rtcp-fb` entry of a media section; its payload may be `*`. -/
structure RtcpFb where
  payload : Scalar
  type : String
  deriving DecidableEq, Repr

/-- A media section of the parsed SDP.  `rtp` and `fmtp` are always arrays,
`rtcpFb` and `direction` exist only when the section has such lines, and
`payloads` is undefined when the `m=` line lists none. -/
structure Media where
  type : String
  payloads : Scalar
  rtp : List Rtp
  fmtp : List Fmtp
  rtcpFb : Option (List RtcpFb)
  direction : Option String
  deriving DecidableEq, Repr

/-- The structure `transform.parse` returns, as far as the source uses it. -/
structure ParsedSdp where
  media : List Media
  deriving DecidableEq, Repr

/-! ## mungeSdp -/

/-- The format parameters the H264 fixup pushes. -/
def canonicalConfig : String :=
  "profile-level-id=42e01f;packetization-mode=1;level-asymmetry-allowed=1"

/-- The entry the H264 fixup pushes for payload type `p`. -/
def canonicalFmtp (p : Scalar) : Fmtp := { payload := p, config := Scalar.str canonicalConfig }

/-- The inner loop over `media.rtp` (lines 92-97): the payload of the first
entry whose codec is the string `'H264'`. -/
def h264payload : List Rtp → Option Scalar
  | [] => none
  | rtp :: rest =>
    if rtp.codec = Scalar.str "H264" then some rtp.payload else h264payload rest

/-- The loop over `media.fmtp` (lines 99-104): whether an entry whose payload
is strictly equal to `p` names a profile-level-id.  The config of an entry
of that payload is asked for `indexOf`, which a number or undefined does not
have. -/
def hasProfileLevelId (p : Scalar) : List Fmtp → Except JsError Bool
  | [] => Except.ok false
  | fmtp :: rest =>
    if strictEquals fmtp.payload p = true then
      match fmtp.config with
      | Scalar.str config =>
        if includes "profile-level-id".data config.data = true then Except.ok true
        else hasProfileLevelId p rest
      | Scalar.num _ => Except.error (JsError.typeError "fmtp.config.indexOf")
      | Scalar.undefined => Except.error (JsError.typeError "fmtp.config.indexOf")
    else hasProfileLevelId p rest

/-- The first loop of `mungeSdp` (lines 89-111): the first video section that
has an H264 entry gets the canonical entry unless it has a profile-level-id,
and the loop stops there. -/
def fixH264 : List Media → Except JsError (List Media)
  | [] => Except.ok []
  | media :: rest =>
    if media.type = "video" then
      match h264payload media.rtp with
      | some p =>
        match hasProfileLevelId p media.fmtp with
        | Except.error e => Except.error e
        | Except.ok true => Except.ok (media :: rest)
        | Except.ok false =>
          Except.ok ({ media with fmtp := media.fmtp ++ [canonicalFmtp p] } :: rest)
      | none =>
        match fixH264 rest with
        | Except.error e => Except.error e
        | Except.ok fixed => Except.ok (media :: fixed)
    else
      match fixH264 rest with
      | Except.error e => Except.error e
      | Except.ok fixed => Except.ok (media :: fixed)

/-- The array `String(media.payloads).split(' ')`. -/
def payloadList (payloads : Scalar) : List String :=
  (splitChars (jsString payloads).data).map String.mk

/-- The body of the second loop of `mungeSdp` (lines 113-121). -/
def filterRtcpFb (media : Media) : Media :=
  { media with
    rtcpFb := media.rtcpFb.map fun fb =>
      fb.filter fun item => decide (jsString item.payload ∈ payloadList media.payloads) }

/-- The second loop of `mungeSdp`: every section loses its orphaned feedback. -/
def fixRtcpFb (media : List Media) : List Media := media.map filterRtcpFb

/-- The loop over `videoMLine.rtp` (lines 127-134): the payload of the first
entry with a truthy codec that equals the preferred one ignoring case.  A
truthy codec that is a number has no `toLowerCase`. -/
def preferredPayload (engine : Engine) (preferredCodec : String) :
    List Rtp → Except JsError (Option Scalar)
  | [] => Except.ok none
  | rtp :: rest =>
    if truthy rtp.codec = true then
      match rtp.codec with
      | Scalar.str codec =>
        if engine.toLowerCase codec = engine.toLowerCase preferredCodec then
          Except.ok (some rtp.payload)
        else preferredPayload engine preferredCodec rest
      | Scalar.num _ => Except.error (JsError.typeError "rtp.codec.toLowerCase")
      | Scalar.undefined => Except.error (JsError.typeError "rtp.codec.toLowerCase")
    else preferredPayload engine preferredCodec rest

/-- Lines 136-141 on a payload string: parse, move `payloadType` first, join. -/
def reorderPayloads (engine : Engine) (payloadType : Scalar) (payloads : String) : String :=
  let payloadTypes := (splitChars payloads.data).map (parseInt engine)
  let payloadIndex := indexOfNumber payloadType payloadTypes
  let spliced := splice1 payloadTypes payloadIndex
  String.mk (joinChars ((jsString payloadType).data :: spliced))

/-- Lines 125-141 on the video m-line: the payload string line 141 assigns,
`none` when the `if (payloadType)` branch is not taken, an exception when
`videoMLine.payloads` is not a string and so has no `split`. -/
def preferredPayloads (engine : Engine) (preferredCodec : String)
    (videoMLine : Media) : Except JsError (Option String) :=
  match preferredPayload engine preferredCodec videoMLine.rtp with
  | Except.error e => Except.error e
  | Except.ok none => Except.ok none
  | Except.ok (some payloadType) =>
    if truthy payloadType = true then
      match videoMLine.payloads with
      | Scalar.str s => Except.ok (some (reorderPayloads engine payloadType s))
      | Scalar.num _ => Except.error (JsError.typeError "videoMLine.payloads.split")
      | Scalar.undefined => Except.error (JsError.typeError "videoMLine.payloads.split")
    else Except.ok none

/-- The test of `parsedSdp.media.find(m => m.type === 'video')`. -/
def isVideo (m : Media) : Bool := decide (m.type = "video")

/-- The assignment `videoMLine.payloads = s`. -/
def setPayloads (s : String) (m : Media) : Media := { m with payloads := Scalar.str s }

/-- The list after the first element that satisfies `p` was changed by `f` in
place (the object `find` returned is the one in the array). -/
def updateFirst (p : Media → Bool) (f : Media → Media) : List Media → List Media
  | [] => []
  | m :: rest => if p m then f m :: rest else m :: updateFirst p f rest

/-- The preferred-codec step of `mungeSdp` (lines 123-143) for a non-null
`preferredCodec`: without a video section `videoMLine` is undefined and
reading `videoMLine.rtp` throws. -/
def fixPreferred (engine : Engine) (preferredCodec : String)
    (media : List Media) : Except JsError (List Media) :=
  match media.find? isVideo with
  | none => Except.error (JsError.typeError "videoMLine.rtp")
  | some videoMLine =>
    match preferredPayloads engine preferredCodec videoMLine with
    | Except.error e => Except.error e
    | Except.ok none => Except.ok media
    | Except.ok (some s) => Except.ok (updateFirst isVideo (setPayloads s) media)

/-- The preferred-codec step for a `preferredCodec` that may be null. -/
def fixPreferredOpt (engine : Engine) (preferredCodec : Option String)
    (media : List Media) : Except JsError (List Media) :=
  match preferredCodec with
  | none => Except.ok media
  | some c => fixPreferred engine c media

/-- The body of `mungeSdp` between `transform.parse` and `transform.write`. -/
def mungeParsed (engine : Engine) (parsedSdp : ParsedSdp)
    (preferredCodec : Option String) : Except JsError ParsedSdp :=
  match fixH264 parsedSdp.media with
  | Except.error e => Except.error e
  | Except.ok fixed =>
    match fixPreferredOpt engine preferredCodec (fixRtcpFb fixed) with
    | Except.error e => Except.error e
    | Except.ok media => Except.ok { media := media }

/-- The function `mungeSdp(sdp, preferredCodec)`, over the library's `parse` and `write`. -/
def mungeSdp (engine : Engine) (parse : String → Except JsError ParsedSdp)
    (write : ParsedSdp → String) (sdp : String) (preferredCodec : Option String) :
    Except JsError String :=
  match parse sdp with
  | Except.error e => Except.error e
  | Except.ok parsedSdp =>
    match mungeParsed engine parsedSdp preferredCodec with
    | Except.error e => Except.error e
    | Except.ok munged => Except.ok (write munged)

/-- One of the three fixups of `mungeSdp`. -/
inductive Fixup where
  | h264
  | rtcpFb
  | preferred
  deriving DecidableEq, Repr

/-- One fixup applied to the media sections. -/
def applyFixup (engine : Engine) (preferredCodec : Option String) :
    Fixup → List Media → Except JsError (List Media)
  | Fixup.h264, media => fixH264 media
  | Fixup.rtcpFb, media => Except.ok (fixRtcpFb media)
  | Fixup.preferred, media => fixPreferredOpt engine preferredCodec media

/-- The fixups of `order` applied one after the other. -/
def applyFixups (engine : Engine) (preferredCodec : Option String) :
    List Fixup → List Media → Except JsError (List Media)
  | [], media => Except.ok media
  | f :: rest, media =>
    match applyFixup engine preferredCodec f media with
    | Except.error e => Except.error e
    | Except.ok media1 => applyFixups engine preferredCodec rest media1

/-- The six orders in which the three fixups can run; the first is the source's. -/
def sixOrders : List (List Fixup) :=
  [[Fixup.h264, Fixup.rtcpFb, Fixup.preferred], [Fixup.h264, Fixup.preferred, Fixup.rtcpFb],
   [Fixup.rtcpFb, Fixup.h264, Fixup.preferred], [Fixup.rtcpFb, Fixup.preferred, Fixup.h264],
   [Fixup.preferred, Fixup.h264, Fixup.rtcpFb], [Fixup.preferred, Fixup.rtcpFb, Fixup.h264]]

/-- Whether two payload lists hold the same entries, whatever their order. -/
def sameMembers (xs ys : List String) : Bool :=
  xs.all (fun x => decide (x ∈ ys)) && ys.all (fun y => decide (y ∈ xs))

/-- The case folding of ASCII letters, which is JavaScript's on ASCII text. -/
def asciiLower (s : String) : String := String.mk (s.data.map Char.toLower)

/-- An engine for the examples, none of which holds a numeral of 2^53 or
more: ASCII case folding, and long numerals rendered digit by digit. -/
def asciiEngine : Engine :=
  { toLowerCase := asciiLower
    bigNumberText := fun negative ds => if negative then '-' :: ds else ds }

/-! ## getMediaDirections -/

/-- The property names every plain object inherits from `Object.prototype`;
reading one of them on `{}` gives a function (or the prototype), not `undefined`. -/
def objectPrototypeKeys : List String :=
  ["constructor", "__defineGetter__", "__defineSetter__", "hasOwnProperty",
   "__lookupGetter__", "__lookupSetter__", "isPrototypeOf", "propertyIsEnumerable",
   "toString", "valueOf", "__proto__", "toLocaleString"]

/-- The own properties of the object `directions`, in insertion order. -/
abbrev Directions := List (String × List (Option String))

/-- The own property `key` of an object, if it has one. -/
def ownProperty (key : String) : Directions → Option (List (Option String))
  | [] => none
  | (k, v) :: rest => if k = key then some v else ownProperty key rest

/-- The assignment `directions[key] = value`. -/
def setProperty (key : String) (value : List (Option String)) : Directions → Directions
  | [] => [(key, value)]
  | (k, v) :: rest =>
    if k = key then (k, value) :: rest else (k, v) :: setProperty key value rest

/-- The loop of `getMediaDirections` (lines 151-153) from the object built so
far.  An own property is an array and so truthy; an inherited one is truthy
and has no `concat`, so calling it throws. -/
def directionsLoop : List Media → Directions → Except JsError Directions
  | [], directions => Except.ok directions
  | media :: rest, directions =>
    match ownProperty media.type directions with
    | some value =>
      directionsLoop rest (setProperty media.type (value ++ [media.direction]) directions)
    | none =>
      if media.type ∈ objectPrototypeKeys then
        Except.error (JsError.typeError "(directions[media.type] || []).concat")
      else directionsLoop rest (setProperty media.type [media.direction] directions)

/-- The function `getMediaDirections`, after `transform.parse`. -/
def getMediaDirections (parsedSdp : ParsedSdp) : Except JsError Directions :=
  directionsLoop parsedSdp.media []

/-! ## closeMediaStream -/

/-- What the global `MediaStreamTrack` is where the code runs: not declared at
all (reading it throws a ReferenceError), declared but without a
`prototype.stop` (the test of line 164 is falsy), or declared with one. -/
inductive TrackGlobal where
  | undeclared
  | withoutStop
  | withStop
  deriving DecidableEq, Repr

/-- A media stream: the tracks each accessor returns (`none` when the stream
has no such method) and whether `stream.stop` is a function. -/
structure MediaStream where
  getTracks : Option (List Nat)
  getAudioTracks : Option (List Nat)
  getVideoTracks : Option (List Nat)
  stop : Bool
  deriving DecidableEq, Repr

/-- A call `closeMediaStream` makes. -/
inductive StopCall where
  | track (id : Nat)
  | stream
  deriving DecidableEq, Repr

/-- What a run of `closeMediaStream` did: the stop calls made, in order, and
the exception that ended it, if any. -/
structure CloseRun where
  calls : List StopCall
  error : Option JsError
  deriving DecidableEq, Repr

/-- The function `closeMediaStream(stream)`; `none` is a null or undefined stream. -/
def closeMediaStream (global : TrackGlobal) (stream : Option MediaStream) : CloseRun :=
  match stream with
  | none => { calls := [], error := none }
  | some s =>
    match global with
    | TrackGlobal.undeclared =>
      { calls := [], error := some (JsError.referenceError "MediaStreamTrack") }
    | TrackGlobal.withStop =>
      match s.getTracks with
      | some tracks => { calls := tracks.map StopCall.track, error := none }
      | none =>
        match s.getAudioTracks with
        | none => { calls := [], error := some (JsError.typeError "stream.getAudioTracks") }
        | some audio =>
          match s.getVideoTracks with
          | none =>
            { calls := audio.map StopCall.track,
              error := some (JsError.typeError "stream.getVideoTracks") }
          | some video => { calls := (audio ++ video).map StopCall.track, error := none }
    | TrackGlobal.withoutStop =>
      if s.stop then { calls := [StopCall.stream], error := none }
      else { calls := [], error := none }

/-- Every track a stream's accessors return. -/
def obtainableTracks (s : MediaStream) : List Nat :=
  (s.getTracks.getD []) ++ (s.getAudioTracks.getD []) ++ (s.getVideoTracks.getD [])

/-! ## createLocalSdp -/

/-- A use of the peer connection. -/
inductive PcCall where
  | createOffer
  | createAnswer
  | setLocalDescription
  | localDescription
  deriving DecidableEq, Repr

/-- The peer connection as `createLocalSdp` sees it: how each promise settles,
and the SDP of `pc.localDescription` once a description was set (`none` when
it is still null). -/
structure PeerConnection (Options Desc : Type) where
  createOffer : Options → Except JsError Desc
  createAnswer : Options → Except JsError Desc
  setLocalDescription : Desc → Except JsError Unit
  localDescription : Desc → Option String

/-- The value a promise is rejected with: a string, or an error object. -/
inductive Reason where
  | text (s : String)
  | error (e : JsError)
  deriving DecidableEq, Repr

/-- How the promise of `createLocalSdp` settled, and the uses of the peer
connection made on the way, in order. -/
structure Settled where
  calls : List PcCall
  outcome : Except Reason String
  deriving DecidableEq

/-- The text every failure inside the promise chain is wrapped in. -/
def wrapText : String := "Error creating local SDP or setting local description: "

/-- The rejection of the final `catch` of the chain (line 77). -/
def wrapped (render : JsError → String) (e : JsError) : Except Reason String :=
  Except.error (Reason.text (wrapText ++ render e))

/-- The rejection of line 59. -/
def typeMessage (type : String) : String :=
  "type must be \"offer\" or \"answer\", but \"" ++ type ++ "\" was given"

/-- The function `createLocalSdp(pc, type, options, preferredCodec)`.  `munge`
is `mungeSdp`; `render e` is the text of `e` in a string concatenation. -/
def createLocalSdp {Options Desc : Type} (render : JsError → String)
    (munge : String → Option String → Except JsError String)
    (pc : PeerConnection Options Desc) (type : String) (options : Options)
    (preferredCodec : Option String) : Settled :=
  if type ≠ "offer" ∧ type ≠ "answer" then
    { calls := [], outcome := Except.error (Reason.text (typeMessage type)) }
  else
    let createFunc := if type = "offer" then PcCall.createOffer else PcCall.createAnswer
    match (if type = "offer" then pc.createOffer options else pc.createAnswer options) with
    | Except.error e => { calls := [createFunc], outcome := wrapped render e }
    | Except.ok desc =>
      match pc.setLocalDescription desc with
      | Except.error e =>
        { calls := [createFunc, PcCall.setLocalDescription], outcome := wrapped render e }
      | Except.ok _ =>
        let calls := [createFunc, PcCall.setLocalDescription, PcCall.localDescription]
        match pc.localDescription desc with
        | none =>
          { calls := calls,
            outcome := wrapped render (JsError.typeError "pc.localDescription.sdp") }
        | some sdp =>
          match munge sdp preferredCodec with
          | Except.error e => { calls := calls, outcome := wrapped render e }
          | Except.ok munged => { calls := calls, outcome := Except.ok munged }

/-! ## The fixups as updates in place -/

/-- A video section with an H264 entry: where the first loop of `mungeSdp` stops. -/
def isH264Video (m : Media) : Bool := isVideo m && (h264payload m.rtp).isSome

/-- The call `media.fmtp.push(entry)`. -/
def appendFmtp (entry : Fmtp) (m : Media) : Media := { m with fmtp := m.fmtp ++ [entry] }

/-- What the first loop of `mungeSdp` decides for a list of media sections: an
exception, nothing to push (`none`), or the entry to push on the first video
section that has an H264 entry. -/
def h264Decision (media : List Media) : Except JsError (Option Fmtp) :=
  match media.find? isH264Video with
  | none => Except.ok none
  | some v =>
    match h264payload v.rtp with
    | none => Except.ok none
    | some p =>
      match hasProfileLevelId p v.fmtp with
      | Except.error e => Except.error e
      | Except.ok true => Except.ok none
      | Except.ok false => Except.ok (some (canonicalFmtp p))

/-- What the first loop of `mungeSdp` reads of a section. -/
def h264Key (m : Media) : String × List Rtp × List Fmtp := (m.type, m.rtp, m.fmtp)

/-- What the preferred-codec step reads of a section. -/
def videoKey (m : Media) : String × List Rtp × Scalar := (m.type, m.rtp, m.payloads)

/-- What the preferred-codec step decides for a list of media sections: an
exception, nothing to write (`none`), or the payload string to write on the
first video section. -/
def preferredDecision (engine : Engine) (preferredCodec : String)
    (media : List Media) : Except JsError (Option String) :=
  match media.find? isVideo with
  | none => Except.error (JsError.typeError "videoMLine.rtp")
  | some videoMLine => preferredPayloads engine preferredCodec videoMLine

/-- Whether `parseInt` is exact on an entry of a payload list: the entry is
not a numeral of 2^53 or more. -/
def exactEntry (entry : String) : Bool :=
  decide (digitsValue (parseIntBody entry.data).2 < exactLimit)

/-- The payload string of the payload types `ps`, as an m-line writes them. -/
def payloadString (ps : List Nat) : String := String.mk (joinChars (ps.map natChars))

/-- The property names of an object. -/
def keys (directions : Directions) : List String := directions.map Prod.fst

/-- The directions of the sections of type `t`, one entry per section, in order. -/
def directionsOf (t : String) (media : List Media) : List (Option String) :=
  (media.filter (fun m => decide (m.type = t))).map (fun m => m.direction)

/-! ## Examples used as concrete inputs -/

/-- An error as text, the way a string concatenation shows it. -/
def renderError : JsError → String
  | JsError.typeError expression => "TypeError: " ++ expression
  | JsError.referenceError name => "ReferenceError: " ++ name
  | JsError.thrown text => text

/-- A peer connection on which every step succeeds. -/
def goodPc : PeerConnection Unit String where
  createOffer := fun _ => Except.ok "offer"
  createAnswer := fun _ => Except.ok "answer"
  setLocalDescription := fun _ => Except.ok ()
  localDescription := fun desc => some desc

/-- An SDP of one audio section, without any video section. -/
def audioOnlySdp : ParsedSdp :=
  { media := [{ type := "audio", payloads := Scalar.str "0 8",
                rtp := [⟨Scalar.num "0", Scalar.str "PCMU"⟩, ⟨Scalar.num "8", Scalar.str "PCMA"⟩],
                fmtp := [], rtcpFb := none, direction := some "sendrecv" }] }

/-- A parser that reads every text as the SDP with one audio section. -/
def audioOnlyParse : String → Except JsError ParsedSdp := fun _ => Except.ok audioOnlySdp

/-- A writer that only counts the media sections. -/
def countWrite : ParsedSdp → String := fun parsed => natText parsed.media.length

/-- A stream with tracks in an environment that may lack `MediaStreamTrack.prototype.stop`. -/
def twoTrackStream : MediaStream :=
  { getTracks := some [1, 2], getAudioTracks := some [1], getVideoTracks := some [2],
    stop := false }

/-- An older stream: no `getTracks`, audio track 1 and video tracks 2 and 3. -/
def olderStream : MediaStream :=
  { getTracks := none, getAudioTracks := some [1], getVideoTracks := some [2, 3], stop := true }

/-- A video section that offers H264 twice: payload 96 with a profile-level-id
and payload 97 without format parameters. -/
def twoH264Sdp : ParsedSdp :=
  { media := [{ type := "video", payloads := Scalar.str "96 97",
                rtp := [⟨Scalar.num "96", Scalar.str "H264"⟩,
                        ⟨Scalar.num "97", Scalar.str "H264"⟩],
                fmtp := [⟨Scalar.num "96", Scalar.str "profile-level-id=42e01f"⟩],
                rtcpFb := none, direction := some "sendrecv" }] }

/-- The audio section of `plainH264Sdp`. -/
def plainAudio : Media :=
  { type := "audio", payloads := Scalar.num "0", rtp := [⟨Scalar.num "0", Scalar.str "PCMU"⟩],
    fmtp := [], rtcpFb := none, direction := some "sendrecv" }

/-- The first video section of `plainH264Sdp`: H264 at payload 102, whose
format parameters name no profile-level-id. -/
def plainVideo : Media :=
  { type := "video", payloads := Scalar.str "100 102",
    rtp := [⟨Scalar.num "100", Scalar.str "VP8"⟩, ⟨Scalar.num "102", Scalar.str "H264"⟩],
    fmtp := [⟨Scalar.num "102", Scalar.str "packetization-mode=1"⟩],
    rtcpFb := some [⟨Scalar.num "100", "nack"⟩], direction := some "sendrecv" }

/-- The second video section of `plainH264Sdp`. -/
def plainSecondVideo : Media :=
  { type := "video", payloads := Scalar.num "102",
    rtp := [⟨Scalar.num "102", Scalar.str "H264"⟩], fmtp := [],
    rtcpFb := none, direction := some "recvonly" }

/-- An audio section, then a video section whose H264 payload 102 has no
profile-level-id, then a second video section. -/
def plainH264Sdp : ParsedSdp := { media := [plainAudio, plainVideo, plainSecondVideo] }

/-- A video section whose H264 payload 96 has the format parameters `1`, which
the parser turns into the number 1 (`a=fmtp:96 1`). -/
def numericConfigSdp : ParsedSdp :=
  { media := [{ type := "video", payloads := Scalar.str "96 97",
                rtp := [⟨Scalar.num "96", Scalar.str "H264"⟩],
                fmtp := [⟨Scalar.num "96", Scalar.num "1"⟩],
                rtcpFb := none, direction := some "sendrecv" }] }

/-- A video section whose payload list spells payload 96 with a leading zero,
as does its feedback entry; VP9 is payload 97. -/
def leadingZeroSdp : ParsedSdp :=
  { media := [{ type := "video", payloads := Scalar.str "096 97",
                rtp := [⟨Scalar.num "96", Scalar.str "VP8"⟩, ⟨Scalar.num "97", Scalar.str "VP9"⟩],
                fmtp := [],
                rtcpFb := some [⟨Scalar.str "096", "nack"⟩, ⟨Scalar.num "97", "nack"⟩],
                direction := some "sendrecv" }] }

/-- The structure `mungeSdp` makes of `leadingZeroSdp` when VP9 is preferred. -/
def leadingZeroMunged : ParsedSdp :=
  { media := [{ type := "video", payloads := Scalar.str "97 96",
                rtp := [⟨Scalar.num "96", Scalar.str "VP8"⟩, ⟨Scalar.num "97", Scalar.str "VP9"⟩],
                fmtp := [],
                rtcpFb := some [⟨Scalar.str "096", "nack"⟩, ⟨Scalar.num "97", "nack"⟩],
                direction := some "sendrecv" }] }

/-- The audio section of `usualSdp`. -/
def usualAudio : Media :=
  { type := "audio", payloads := Scalar.str "111 0",
    rtp := [⟨Scalar.num "111", Scalar.str "opus"⟩],
    fmtp := [⟨Scalar.num "111", Scalar.str "minptime=10;useinbandfec=1"⟩],
    rtcpFb := some [⟨Scalar.num "111", "transport-cc"⟩], direction := some "sendrecv" }

/-- The video section of `usualSdp`: VP8 at 96, rtx at 97 and H264 at 102,
feedback for 96, for the absent payload 120, for `*` and for 102. -/
def usualVideo : Media :=
  { type := "video", payloads := Scalar.str "96 97 102",
    rtp := [⟨Scalar.num "96", Scalar.str "VP8"⟩, ⟨Scalar.num "97", Scalar.str "rtx"⟩,
            ⟨Scalar.num "102", Scalar.str "H264"⟩],
    fmtp := [⟨Scalar.num "97", Scalar.str "apt=96"⟩],
    rtcpFb := some [⟨Scalar.num "96", "nack"⟩, ⟨Scalar.num "120", "nack"⟩,
                    ⟨Scalar.str "*", "goog-remb"⟩, ⟨Scalar.num "102", "nack"⟩],
    direction := some "sendrecv" }

/-- An audio section and a video section, as a browser offers them. -/
def usualSdp : ParsedSdp := { media := [usualAudio, usualVideo] }

/-- The structure `mungeSdp` makes of `usualSdp` when H264 is preferred. -/
def usualSdpMunged : ParsedSdp :=
  { media := [usualAudio,
              { type := "video", payloads := Scalar.str "102 96 97",
                rtp := [⟨Scalar.num "96", Scalar.str "VP8"⟩, ⟨Scalar.num "97", Scalar.str "rtx"⟩,
                        ⟨Scalar.num "102", Scalar.str "H264"⟩],
                fmtp := [⟨Scalar.num "97", Scalar.str "apt=96"⟩,
                  ⟨Scalar.num "102", Scalar.str
                    "profile-level-id=42e01f;packetization-mode=1;level-asymmetry-allowed=1"⟩],
                rtcpFb := some [⟨Scalar.num "96", "nack"⟩, ⟨Scalar.num "102", "nack"⟩],
                direction := some "sendrecv" }] }

/-- Two audio sections (sendrecv, recvonly) and a video section (sendonly). -/
def threeSectionSdp : ParsedSdp :=
  { media := [{ type := "audio", payloads := Scalar.str "111 0", rtp := [], fmtp := [],
                rtcpFb := none, direction := some "sendrecv" },
              { type := "audio", payloads := Scalar.num "0", rtp := [], fmtp := [],
                rtcpFb := none, direction := some "recvonly" },
              { type := "video", payloads := Scalar.str "96 97", rtp := [], fmtp := [],
                rtcpFb := none, direction := some "sendonly" }] }

/-- A section whose media type is the word "constructor", as the line
`m=constructor 9 RTP/AVP 0` parses. -/
def constructorSdp : ParsedSdp :=
  { media := [{ type := "constructor", payloads := Scalar.num "0", rtp := [], fmtp := [],
                rtcpFb := none, direction := some "sendrecv" }] }

/-- A video section that lists payloads 96 and 97 on its m-line, maps VP8 to
payload 98, which the m-line does not list, and has feedback for payload 97. -/
def unlistedSdp : ParsedSdp :=
  { media := [{ type := "video", payloads := Scalar.str "96 97",
                rtp := [⟨Scalar.num "98", Scalar.str "VP8"⟩],
                fmtp := [], rtcpFb := some [⟨Scalar.num "97", "nack"⟩],
                direction := some "sendrecv" }] }

/-- A video section with the single payload 96, as `m=video 9 RTP/AVP 96`
with `a=rtpmap:96 VP8/90000` parses: the payload list is the number 96. -/
def singlePayloadSdp : ParsedSdp :=
  { media := [{ type := "video", payloads := Scalar.num "96",
                rtp := [⟨Scalar.num "96", Scalar.str "VP8"⟩], fmtp := [],
                rtcpFb := none, direction := some "sendrecv" }] }

/-- A video section whose preferred codec has payload type 0. -/
def payloadZeroSdp : ParsedSdp :=
  { media := [{ type := "video", payloads := Scalar.str "96 0",
                rtp := [⟨Scalar.num "96", Scalar.str "VP9"⟩, ⟨Scalar.num "0", Scalar.str "VP8"⟩],
                fmtp := [], rtcpFb := none, direction := some "sendrecv" }] }

/-- A video section whose VP8 entry has the payload `096`, which the parser
leaves a string (`a=rtpmap:096 VP8/90000`). -/
def stringPayloadSdp : ParsedSdp :=
  { media := [{ type := "video", payloads := Scalar.str "96 97 98",
                rtp := [⟨Scalar.str "096", Scalar.str "VP8"⟩], fmtp := [],
                rtcpFb := none, direction := some "sendrecv" }] }

/-- The H264 fixup once decided: the entry is pushed on the first video
section that has an H264 entry, or nothing is done. -/
def h264Step : Option Fmtp → List Media → List Media
  | none, media => media
  | some entry, media => updateFirst isH264Video (appendFmtp entry) media

/-- The preferred-codec step once decided: the payload string is written on
the first video section, or nothing is done. -/
def preferredStep : Option String → List Media → List Media
  | none, media => media
  | some s, media => updateFirst isVideo (setPayloads s) media

/-- What the preferred-codec step decides when `preferredCodec` may be null. -/
def preferredDecisionOpt (engine : Engine) (preferredCodec : Option String)
    (media : List Media) : Except JsError (Option String) :=
  match preferredCodec with
  | none => Except.ok none
  | some c => preferredDecision engine c media

/-- A number text that `join` and `split` give back and `parseInt` reads as
the same number: it holds no space and `parseInt` returns it. -/
def stableText (engine : Engine) (t : List Char) : Prop :=
  (∀ c ∈ t, c ≠ ' ') ∧ parseInt engine t = t

/-- Whether a payload type is a number that is a non-negative integer below
2^53: its text is the decimal text of its own value. -/
def exactNumber : Scalar → Bool
  | Scalar.num text =>
    decide (text = natText (digitsValue text.data) ∧ digitsValue text.data < exactLimit)
  | Scalar.str _ => false
  | Scalar.undefined => false

/-! ## createLocalSdp -/

/-- C5: for every type other than "offer" and "answer", `createLocalSdp`
rejects with the message `type must be "offer" or "answer", but "<type>" was
given` and makes no use of the peer connection: no `createOffer`,
`createAnswer` or `setLocalDescription` call and no read of `localDescription`. -/
theorem createLocalSdp_rejects_unknown_type {Options Desc : Type} (render : JsError → String)
    (munge : String → Option String → Except JsError String)
    (pc : PeerConnection Options Desc) (type : String) (options : Options)
    (preferredCodec : Option String) (hoffer : type ≠ "offer") (hanswer : type ≠ "answer") :
    createLocalSdp render munge pc type options preferredCodec =
      { calls := [],
        outcome := Except.error (Reason.text
          ("type must be \"offer\" or \"answer\", but \"" ++ type ++ "\" was given")) } := by
  unfold createLocalSdp
  rw [if_pos ⟨hoffer, hanswer⟩]
  rfl

/-- The instance of C5 at the type "bogus". -/
theorem createLocalSdp_rejects_unknown_type_witness :
    createLocalSdp renderError (mungeSdp asciiEngine audioOnlyParse countWrite) goodPc "bogus" ()
        none =
      { calls := [],
        outcome := Except.error (Reason.text
          "type must be \"offer\" or \"answer\", but \"bogus\" was given") } :=
  createLocalSdp_rejects_unknown_type renderError _ goodPc "bogus" () none
    (by decide) (by decide)

/-- C6 as stated fails: with a valid type and a peer connection on which
every step succeeds, `mungeSdp` throws the TypeError of a missing video
section, and `createLocalSdp` rejects with a string that wraps its text, not
with the error itself. -/
theorem createLocalSdp_munge_error_is_wrapped_example :
    mungeSdp asciiEngine audioOnlyParse countWrite "offer" (some "VP8") =
        Except.error (JsError.typeError "videoMLine.rtp") ∧
      (createLocalSdp renderError (mungeSdp asciiEngine audioOnlyParse countWrite) goodPc "offer"
          () (some "VP8")).outcome =
        Except.error (Reason.text
          "Error creating local SDP or setting local description: TypeError: videoMLine.rtp") ∧
      (createLocalSdp renderError (mungeSdp asciiEngine audioOnlyParse countWrite) goodPc "offer"
          () (some "VP8")).outcome ≠
        Except.error (Reason.error (JsError.typeError "videoMLine.rtp")) := by
  decide

/-- C6, amended: when the type is "offer" or "answer", the creation and the
local-description assignment succeed, `pc.localDescription` holds an SDP and
`mungeSdp` fails on it with error `e`, `createLocalSdp` has used the peer
connection three times and rejects with the text `Error creating local SDP or
setting local description: ` followed by the text of `e`. -/
theorem createLocalSdp_wraps_munge_error {Options Desc : Type} (render : JsError → String)
    (engine : Engine) (parse : String → Except JsError ParsedSdp)
    (write : ParsedSdp → String) (pc : PeerConnection Options Desc) (type : String)
    (options : Options) (preferredCodec : Option String) (desc : Desc) (sdp : String)
    (e : JsError) (htype : type = "offer" ∨ type = "answer")
    (hcreate : (if type = "offer" then pc.createOffer options else pc.createAnswer options) =
      Except.ok desc)
    (hset : pc.setLocalDescription desc = Except.ok ())
    (hlocal : pc.localDescription desc = some sdp)
    (hmunge : mungeSdp engine parse write sdp preferredCodec = Except.error e) :
    createLocalSdp render (mungeSdp engine parse write) pc type options preferredCodec =
      { calls := [if type = "offer" then PcCall.createOffer else PcCall.createAnswer,
                  PcCall.setLocalDescription, PcCall.localDescription],
        outcome := Except.error (Reason.text
          ("Error creating local SDP or setting local description: " ++ render e)) } := by
  have hvalid : ¬ (type ≠ "offer" ∧ type ≠ "answer") := by
    rcases htype with h | h <;> simp [h]
  unfold createLocalSdp
  rw [if_neg hvalid]
  simp only [hcreate, hset, hlocal, hmunge]
  rfl

/-- The instance of the amended C6 at an answer whose SDP has no video section. -/
theorem createLocalSdp_wraps_munge_error_witness :
    createLocalSdp renderError (mungeSdp asciiEngine audioOnlyParse countWrite) goodPc "answer"
        () (some "VP8") =
      { calls := [PcCall.createAnswer, PcCall.setLocalDescription, PcCall.localDescription],
        outcome := Except.error (Reason.text
          ("Error creating local SDP or setting local description: " ++
            renderError (JsError.typeError "videoMLine.rtp"))) } :=
  createLocalSdp_wraps_munge_error renderError asciiEngine audioOnlyParse countWrite goodPc
    "answer" () (some "VP8") "answer" "answer" (JsError.typeError "videoMLine.rtp")
    (by decide) (by decide) (by decide) (by decide) (by decide)

/-! ## closeMediaStream -/

theorem count_track_map (tracks : List Nat) (t : Nat) :
    (tracks.map StopCall.track).count (StopCall.track t) = tracks.count t :=
  List.count_map_of_injective tracks StopCall.track (fun _ _ h => by injection h) t

/-- C7 as stated fails: where the global `MediaStreamTrack` is declared but
has no `prototype.stop`, a stream that offers `getTracks` (tracks 1 and 2) and no
`stop` of its own is left with every track running: no call is made. -/
theorem closeMediaStream_legacy_environment_example :
    1 ∈ obtainableTracks twoTrackStream ∧
      closeMediaStream TrackGlobal.withoutStop (some twoTrackStream) =
        { calls := [], error := none } ∧
      (closeMediaStream TrackGlobal.withoutStop (some twoTrackStream)).calls.count
        (StopCall.track 1) ≠ 1 := by
  decide

/-- C7, amended: on an absent stream `closeMediaStream` makes no call and
does not fail, whatever the environment.  On a present stream, where
`MediaStreamTrack.prototype.stop` exists: with `getTracks`, `stop` is called
on the tracks it returns, in order, as often as each is listed (once on every
track of a list without repeats); without `getTracks` but with
`getAudioTracks` and `getVideoTracks`, likewise on the audio tracks and then
the video tracks.  Where the global `MediaStreamTrack` is declared but has no
`prototype.stop`, no track is stopped: the stream's own `stop` is called once
if it is a function, and nothing is called otherwise. -/
theorem closeMediaStream_stops_tracks (global : TrackGlobal) (s : MediaStream) :
    closeMediaStream global none = { calls := [], error := none } ∧
    (∀ tracks, s.getTracks = some tracks →
      closeMediaStream TrackGlobal.withStop (some s) =
          { calls := tracks.map StopCall.track, error := none } ∧
        (∀ t, (closeMediaStream TrackGlobal.withStop (some s)).calls.count (StopCall.track t) =
          tracks.count t) ∧
        (tracks.Nodup → ∀ t ∈ tracks,
          (closeMediaStream TrackGlobal.withStop (some s)).calls.count (StopCall.track t) = 1)) ∧
    (∀ audio video, s.getTracks = none → s.getAudioTracks = some audio →
      s.getVideoTracks = some video →
      closeMediaStream TrackGlobal.withStop (some s) =
          { calls := (audio ++ video).map StopCall.track, error := none } ∧
        (∀ t, (closeMediaStream TrackGlobal.withStop (some s)).calls.count (StopCall.track t) =
          (audio ++ video).count t) ∧
        ((audio ++ video).Nodup → ∀ t ∈ audio ++ video,
          (closeMediaStream TrackGlobal.withStop (some s)).calls.count (StopCall.track t) = 1)) ∧
    closeMediaStream TrackGlobal.withoutStop (some s) =
      { calls := if s.stop then [StopCall.stream] else [], error := none } := by
  refine ⟨rfl, ?_, ?_, ?_⟩
  · intro tracks h
    have hrun : closeMediaStream TrackGlobal.withStop (some s) =
        { calls := tracks.map StopCall.track, error := none } := by
      simp only [closeMediaStream, h]
    refine ⟨hrun, ?_, ?_⟩
    · intro t
      rw [hrun]
      exact count_track_map tracks t
    · intro hnodup t ht
      rw [hrun]
      show (tracks.map StopCall.track).count (StopCall.track t) = 1
      rw [count_track_map]
      exact List.count_eq_one_of_mem hnodup ht
  · intro audio video h ha hv
    have hrun : closeMediaStream TrackGlobal.withStop (some s) =
        { calls := (audio ++ video).map StopCall.track, error := none } := by
      simp only [closeMediaStream, h, ha, hv]
    refine ⟨hrun, ?_, ?_⟩
    · intro t
      rw [hrun]
      exact count_track_map (audio ++ video) t
    · intro hnodup t ht
      rw [hrun]
      show ((audio ++ video).map StopCall.track).count (StopCall.track t) = 1
      rw [count_track_map]
      exact List.count_eq_one_of_mem hnodup ht
  · unfold closeMediaStream
    by_cases hs : s.stop = true <;> simp [hs]

/-- The amended C7 at a stream without `getTracks` that has audio track 1 and
video tracks 2 and 3: each is stopped once, in that order. -/
theorem closeMediaStream_stops_tracks_witness :
    closeMediaStream TrackGlobal.withStop (some olderStream) =
        { calls := [StopCall.track 1, StopCall.track 2, StopCall.track 3], error := none } ∧
      (closeMediaStream TrackGlobal.withStop (some olderStream)).calls.count
        (StopCall.track 3) = 1 :=
  have h := (closeMediaStream_stops_tracks TrackGlobal.withStop olderStream).2.2.1 [1] [2, 3]
    rfl rfl rfl
  ⟨h.1, h.2.2 (by decide) 3 (by decide)⟩

/-! ## Lemmas on the media list -/

theorem map_updateFirst {β : Type} (p : Media → Bool) (f : Media → Media) (g : Media → β)
    (hg : ∀ m, g (f m) = g m) (l : List Media) : (updateFirst p f l).map g = l.map g := by
  induction l with
  | nil => rfl
  | cons m rest ih =>
    by_cases hp : p m = true <;> simp [updateFirst, hp, hg, ih]

theorem find_map_updateFirst {β : Type} (p q : Media → Bool) (f : Media → Media)
    (k : Media → β) (hp : ∀ m, p (f m) = p m) (hk : ∀ m, k (f m) = k m) (l : List Media) :
    ((updateFirst q f l).find? p).map k = (l.find? p).map k := by
  induction l with
  | nil => rfl
  | cons m rest ih =>
    by_cases hq : q m = true
    · by_cases hpm : p m = true
      · simp [updateFirst, hq, List.find?, hp, hpm, hk]
      · simp [updateFirst, hq, List.find?, hp, hpm]
    · by_cases hpm : p m = true
      · simp [updateFirst, hq, List.find?, hpm]
      · simpa [updateFirst, hq, List.find?, hpm] using ih

theorem find_map_map {β : Type} (p : Media → Bool) (f : Media → Media) (k : Media → β)
    (hp : ∀ m, p (f m) = p m) (hk : ∀ m, k (f m) = k m) (l : List Media) :
    ((l.map f).find? p).map k = (l.find? p).map k := by
  induction l with
  | nil => rfl
  | cons m rest ih =>
    by_cases hpm : p m = true
    · simp [List.find?, hp, hpm, hk]
    · simpa [List.find?, hp, hpm] using ih

theorem updateFirst_append (p : Media → Bool) (f : Media → Media) (before : List Media)
    (m : Media) (after : List Media) (hbefore : ∀ x ∈ before, p x = false) (hm : p m = true) :
    updateFirst p f (before ++ m :: after) = before ++ f m :: after := by
  induction before with
  | nil => simp [updateFirst, hm]
  | cons x rest ih =>
    have hx := hbefore x (List.mem_cons_self _ _)
    have hrest := ih (fun y hy => hbefore y (List.mem_cons_of_mem _ hy))
    simp [updateFirst, hx, hrest]

theorem find_append (p : Media → Bool) (before : List Media) (m : Media) (after : List Media)
    (hbefore : ∀ x ∈ before, p x = false) (hm : p m = true) :
    (before ++ m :: after).find? p = some m := by
  induction before with
  | nil => simp [List.find?, hm]
  | cons x rest ih =>
    have hx := hbefore x (List.mem_cons_self _ _)
    have hrest := ih (fun y hy => hbefore y (List.mem_cons_of_mem _ hy))
    simp only [List.cons_append, List.find?, hx]
    exact hrest

theorem updateFirst_map_comm (p : Media → Bool) (f g : Media → Media) (l : List Media)
    (hp : ∀ m, p (g m) = p m) (hc : ∀ v, l.find? p = some v → f (g v) = g (f v)) :
    updateFirst p f (l.map g) = (updateFirst p f l).map g := by
  induction l with
  | nil => rfl
  | cons m rest ih =>
    by_cases hm : p m = true
    · have := hc m (by simp [List.find?, hm])
      simp [updateFirst, hp, hm, this]
    · have hrest := ih (fun v hv => hc v (by simpa [List.find?, hm] using hv))
      simp [updateFirst, hp, hm, hrest]

theorem updateFirst_comm (p q : Media → Bool) (f g : Media → Media) (l : List Media)
    (hpg : ∀ m, p (g m) = p m) (hqf : ∀ m, q (f m) = q m) (hc : ∀ m, f (g m) = g (f m)) :
    updateFirst p f (updateFirst q g l) = updateFirst q g (updateFirst p f l) := by
  induction l with
  | nil => rfl
  | cons m rest ih =>
    by_cases hp : p m = true <;> by_cases hq : q m = true <;>
      simp [updateFirst, hp, hq, hpg, hqf, hc, ih]

theorem map_updateFirst_map {β : Type} (p : Media → Bool) (f g : Media → Media)
    (k : Media → β) (hp : ∀ m, p (g m) = p m) (hk1 : ∀ m, k (g m) = k m)
    (hk2 : ∀ m, k (f (g m)) = k (f m)) (l : List Media) :
    (updateFirst p f (l.map g)).map k = (updateFirst p f l).map k := by
  induction l with
  | nil => rfl
  | cons m rest ih =>
    by_cases hm : p m = true
    · simp [updateFirst, hp, hm, hk1, hk2, Function.comp_def]
    · simp [updateFirst, hp, hm, hk1, ih]

theorem updateFirst_idem (p : Media → Bool) (f : Media → Media) (l : List Media)
    (hp : ∀ m, p (f m) = p m) (hf : ∀ m, f (f m) = f m) :
    updateFirst p f (updateFirst p f l) = updateFirst p f l := by
  induction l with
  | nil => rfl
  | cons m rest ih =>
    by_cases hm : p m = true <;> simp [updateFirst, hm, hp, hf, ih]

theorem updateFirst_eq_self (p : Media → Bool) (f : Media → Media) (l : List Media)
    (h : ∀ v, l.find? p = some v → f v = v) : updateFirst p f l = l := by
  induction l with
  | nil => rfl
  | cons m rest ih =>
    by_cases hm : p m = true
    · have := h m (by simp [List.find?, hm])
      simp [updateFirst, hm, this]
    · have hrest := ih (fun v hv => h v (by simpa [List.find?, hm] using hv))
      simp [updateFirst, hm, hrest]

theorem find_updateFirst (p : Media → Bool) (f : Media → Media) (l : List Media)
    (hp : ∀ m, p (f m) = p m) : (updateFirst p f l).find? p = (l.find? p).map f := by
  induction l with
  | nil => rfl
  | cons m rest ih =>
    by_cases hm : p m = true
    · simp [updateFirst, hm, List.find?, hp]
    · simp [updateFirst, hm, List.find?, ih]

/-! ## The fixups as decisions and steps -/

theorem fixH264_eq (l : List Media) :
    fixH264 l =
      match h264Decision l with
      | Except.error e => Except.error e
      | Except.ok d => Except.ok (h264Step d l) := by
  induction l with
  | nil => rfl
  | cons m rest ih =>
    by_cases hv : m.type = "video"
    · cases hp : h264payload m.rtp with
      | none =>
        have hnot : isH264Video m = false := by simp [isH264Video, hp]
        have hdec : h264Decision (m :: rest) = h264Decision rest := by
          simp [h264Decision, List.find?, hnot]
        rw [hdec]
        simp only [fixH264, hv, if_true, hp, ih]
        cases h264Decision rest with
        | error e => rfl
        | ok d =>
          cases d with
          | none => rfl
          | some f => simp [h264Step, updateFirst, hnot]
      | some p =>
        have his : isH264Video m = true := by simp [isH264Video, isVideo, hv, hp]
        have hdec : h264Decision (m :: rest) =
            match hasProfileLevelId p m.fmtp with
            | Except.error e => Except.error e
            | Except.ok true => Except.ok none
            | Except.ok false => Except.ok (some (canonicalFmtp p)) := by
          simp [h264Decision, List.find?, his, hp]
        rw [hdec]
        simp only [fixH264, hv, if_true, hp]
        cases hasProfileLevelId p m.fmtp with
        | error e => rfl
        | ok b =>
          cases b with
          | true => rfl
          | false =>
            simp only [h264Step, updateFirst, his, if_true, appendFmtp, hv]
    · have hnot : isH264Video m = false := by simp [isH264Video, isVideo, hv]
      have hdec : h264Decision (m :: rest) = h264Decision rest := by
        simp [h264Decision, List.find?, hnot]
      rw [hdec]
      simp only [fixH264, hv, if_false, ih]
      cases h264Decision rest with
      | error e => rfl
      | ok d =>
        cases d with
        | none => rfl
        | some f => simp [h264Step, updateFirst, hnot]

theorem fixPreferredOpt_eq (engine : Engine) (c : Option String) (l : List Media) :
    fixPreferredOpt engine c l =
      match preferredDecisionOpt engine c l with
      | Except.error e => Except.error e
      | Except.ok d => Except.ok (preferredStep d l) := by
  cases c with
  | none => rfl
  | some c =>
    simp only [fixPreferredOpt, fixPreferred, preferredDecisionOpt, preferredDecision]
    cases hf : l.find? isVideo with
    | none => rfl
    | some v =>
      simp only []
      cases hpp : preferredPayloads engine c v with
      | error e => rfl
      | ok d => cases d <;> rfl

theorem h264Decision_congr (l l2 : List Media)
    (h : (l.find? isH264Video).map h264Key = (l2.find? isH264Video).map h264Key) :
    h264Decision l = h264Decision l2 := by
  unfold h264Decision
  cases h1 : l.find? isH264Video with
  | none =>
    cases h2 : l2.find? isH264Video with
    | none => rfl
    | some w => simp [h1, h2] at h
  | some v =>
    cases h2 : l2.find? isH264Video with
    | none => simp [h1, h2] at h
    | some w =>
      simp only [h1, h2, Option.map_some', Option.some.injEq, h264Key, Prod.mk.injEq] at h
      simp only [h.2.1, h.2.2]

theorem preferredPayloads_congr (engine : Engine) (c : String) (v w : Media)
    (h : videoKey v = videoKey w) :
    preferredPayloads engine c v = preferredPayloads engine c w := by
  simp only [videoKey, Prod.mk.injEq] at h
  unfold preferredPayloads
  rw [h.2.1, h.2.2]

theorem preferredDecision_congr (engine : Engine) (c : String) (l l2 : List Media)
    (h : (l.find? isVideo).map videoKey = (l2.find? isVideo).map videoKey) :
    preferredDecision engine c l = preferredDecision engine c l2 := by
  unfold preferredDecision
  cases h1 : l.find? isVideo with
  | none =>
    cases h2 : l2.find? isVideo with
    | none => rfl
    | some w => simp [h1, h2] at h
  | some v =>
    cases h2 : l2.find? isVideo with
    | none => simp [h1, h2] at h
    | some w =>
      simp only [h1, h2, Option.map_some', Option.some.injEq] at h
      exact preferredPayloads_congr engine c v w h

theorem preferredDecisionOpt_congr (engine : Engine) (c : Option String) (l l2 : List Media)
    (h : (l.find? isVideo).map videoKey = (l2.find? isVideo).map videoKey) :
    preferredDecisionOpt engine c l = preferredDecisionOpt engine c l2 := by
  cases c with
  | none => rfl
  | some c => exact preferredDecision_congr engine c l l2 h

theorem h264Decision_fixRtcpFb (l : List Media) :
    h264Decision (fixRtcpFb l) = h264Decision l :=
  h264Decision_congr _ _
    (find_map_map isH264Video filterRtcpFb h264Key (fun _ => rfl) (fun _ => rfl) l)

theorem h264Decision_preferredStep (d : Option String) (l : List Media) :
    h264Decision (preferredStep d l) = h264Decision l := by
  cases d with
  | none => rfl
  | some s =>
    exact h264Decision_congr _ _
      (find_map_updateFirst isH264Video isVideo (setPayloads s) h264Key (fun _ => rfl)
        (fun _ => rfl) l)

theorem preferredDecisionOpt_fixRtcpFb (engine : Engine) (c : Option String) (l : List Media) :
    preferredDecisionOpt engine c (fixRtcpFb l) = preferredDecisionOpt engine c l :=
  preferredDecisionOpt_congr engine c _ _
    (find_map_map isVideo filterRtcpFb videoKey (fun _ => rfl) (fun _ => rfl) l)

theorem preferredDecisionOpt_h264Step (engine : Engine) (c : Option String)
    (d : Option Fmtp) (l : List Media) :
    preferredDecisionOpt engine c (h264Step d l) = preferredDecisionOpt engine c l := by
  cases d with
  | none => rfl
  | some f =>
    exact preferredDecisionOpt_congr engine c _ _
      (find_map_updateFirst isVideo isH264Video (appendFmtp f) videoKey (fun _ => rfl)
        (fun _ => rfl) l)

theorem h264Step_fixRtcpFb (d : Option Fmtp) (l : List Media) :
    h264Step d (fixRtcpFb l) = fixRtcpFb (h264Step d l) := by
  cases d with
  | none => rfl
  | some f =>
    exact updateFirst_map_comm isH264Video (appendFmtp f) filterRtcpFb l (fun _ => rfl)
      (fun _ _ => rfl)

theorem preferredStep_h264Step (dP : Option String) (dF : Option Fmtp) (l : List Media) :
    preferredStep dP (h264Step dF l) = h264Step dF (preferredStep dP l) := by
  cases dP with
  | none => rfl
  | some s =>
    cases dF with
    | none => rfl
    | some f =>
      exact updateFirst_comm isVideo isH264Video (setPayloads s) (appendFmtp f) l
        (fun _ => rfl) (fun _ => rfl) (fun _ => rfl)

/-- The runs of `mungeSdp` that return: both decisions are taken on the
parsed media sections, and the result is the three steps in the source's order. -/
theorem mungeParsed_ok_iff (engine : Engine) (sdp out : ParsedSdp) (c : Option String) :
    mungeParsed engine sdp c = Except.ok out ↔
      ∃ dF dP, h264Decision sdp.media = Except.ok dF ∧
        preferredDecisionOpt engine c sdp.media = Except.ok dP ∧
        out.media = preferredStep dP (fixRtcpFb (h264Step dF sdp.media)) := by
  unfold mungeParsed
  rw [fixH264_eq]
  cases hF : h264Decision sdp.media with
  | error e => simp
  | ok dF =>
    simp only [fixPreferredOpt_eq, preferredDecisionOpt_fixRtcpFb, preferredDecisionOpt_h264Step]
    cases hP : preferredDecisionOpt engine c sdp.media with
    | error e => simp
    | ok dP =>
      cases out
      simp only [Except.ok.injEq, ParsedSdp.mk.injEq, exists_and_left, exists_eq_left']
      constructor
      · intro h
        exact h.symm
      · intro h
        exact h.symm

theorem preferredStep_map_fmtp (d : Option String) (l : List Media) :
    (preferredStep d l).map (fun m => m.fmtp) = l.map (fun m => m.fmtp) := by
  cases d with
  | none => rfl
  | some s => exact map_updateFirst isVideo (setPayloads s) (fun m => m.fmtp) (fun _ => rfl) l

theorem fixRtcpFb_map_fmtp (l : List Media) :
    (fixRtcpFb l).map (fun m => m.fmtp) = l.map (fun m => m.fmtp) := by
  simp [fixRtcpFb, List.map_map, Function.comp_def, filterRtcpFb]

theorem fixRtcpFb_map_payloads (l : List Media) :
    (fixRtcpFb l).map (fun m => m.payloads) = l.map (fun m => m.payloads) := by
  simp [fixRtcpFb, List.map_map, Function.comp_def, filterRtcpFb]

theorem h264Step_map_payloads (d : Option Fmtp) (l : List Media) :
    (h264Step d l).map (fun m => m.payloads) = l.map (fun m => m.payloads) := by
  cases d with
  | none => rfl
  | some f =>
    exact map_updateFirst isH264Video (appendFmtp f) (fun m => m.payloads) (fun _ => rfl) l

theorem h264Decision_no_video (l : List Media) (h : ∀ m ∈ l, m.type ≠ "video") :
    h264Decision l = Except.ok none := by
  have hnone : l.find? isH264Video = none := by
    rw [List.find?_eq_none]
    intro m hm
    simp [isH264Video, isVideo, h m hm]
  simp [h264Decision, hnone]

theorem preferredDecision_no_video (engine : Engine) (c : String) (l : List Media)
    (h : ∀ m ∈ l, m.type ≠ "video") :
    preferredDecision engine c l = Except.error (JsError.typeError "videoMLine.rtp") := by
  have hnone : l.find? isVideo = none := by
    rw [List.find?_eq_none]
    intro m hm
    simpa [isVideo] using h m hm
  simp [preferredDecision, hnone]

/-! ## mungeSdp without a video section, and without a preferred codec -/

/-- C8: when the parsed SDP has no media section of type "video" and a
preferred codec is given, `mungeSdp` throws (the TypeError of reading
`videoMLine.rtp`) and returns no SDP.  With `preferredCodec` null the
preferred-codec step is skipped: `mungeSdp` is the H264 fixup followed by the
feedback filter, and whenever it returns every section has kept its payload
list. -/
theorem mungeSdp_preferred_needs_video (engine : Engine)
    (parse : String → Except JsError ParsedSdp) (write : ParsedSdp → String) (sdp : String)
    (parsedSdp : ParsedSdp) (hparse : parse sdp = Except.ok parsedSdp) :
    (∀ preferredCodec : String, (∀ m ∈ parsedSdp.media, m.type ≠ "video") →
      mungeParsed engine parsedSdp (some preferredCodec) =
          Except.error (JsError.typeError "videoMLine.rtp") ∧
        mungeSdp engine parse write sdp (some preferredCodec) =
          Except.error (JsError.typeError "videoMLine.rtp")) ∧
    (mungeParsed engine parsedSdp none =
      match fixH264 parsedSdp.media with
      | Except.error e => Except.error e
      | Except.ok fixed => Except.ok { media := fixRtcpFb fixed }) ∧
    (∀ munged, mungeParsed engine parsedSdp none = Except.ok munged →
      mungeSdp engine parse write sdp none = Except.ok (write munged) ∧
      munged.media.map (fun m => m.payloads) = parsedSdp.media.map (fun m => m.payloads)) := by
  refine ⟨?_, ?_, ?_⟩
  · intro c hno
    have hmunge : mungeParsed engine parsedSdp (some c) =
        Except.error (JsError.typeError "videoMLine.rtp") := by
      have hdec : preferredDecisionOpt engine (some c)
          (fixRtcpFb (h264Step none parsedSdp.media)) =
          Except.error (JsError.typeError "videoMLine.rtp") := by
        rw [preferredDecisionOpt_fixRtcpFb, preferredDecisionOpt_h264Step]
        exact preferredDecision_no_video engine c _ hno
      unfold mungeParsed
      rw [fixH264_eq, h264Decision_no_video _ hno]
      simp only [fixPreferredOpt_eq, hdec]
    exact ⟨hmunge, by simp only [mungeSdp, hparse, hmunge]⟩
  · unfold mungeParsed
    cases fixH264 parsedSdp.media <;> rfl
  · intro munged hm
    refine ⟨by simp only [mungeSdp, hparse, hm], ?_⟩
    obtain ⟨dF, dP, _, hP, hout⟩ := (mungeParsed_ok_iff engine parsedSdp munged none).mp hm
    simp only [preferredDecisionOpt, Except.ok.injEq] at hP
    subst hP
    rw [hout]
    show (fixRtcpFb (h264Step dF parsedSdp.media)).map _ = _
    rw [fixRtcpFb_map_payloads, h264Step_map_payloads]

/-- C8 at an SDP with one audio section: with the preferred codec "VP8"
`mungeSdp` throws, without one it returns and the payload list stays "0 8". -/
theorem mungeSdp_preferred_needs_video_witness :
    mungeSdp asciiEngine audioOnlyParse countWrite "v=0" (some "VP8") =
        Except.error (JsError.typeError "videoMLine.rtp") ∧
      mungeSdp asciiEngine audioOnlyParse countWrite "v=0" none = Except.ok "1" ∧
      audioOnlySdp.media.map (fun m => m.payloads) = [Scalar.str "0 8"] :=
  have h := mungeSdp_preferred_needs_video asciiEngine audioOnlyParse countWrite "v=0"
    audioOnlySdp rfl
  have h2 := h.2.2 audioOnlySdp (by decide)
  ⟨(h.1 "VP8" (by decide)).2, h2.1.trans (by decide), h2.2⟩

/-! ## The H264 fixup -/

theorem h264payload_eq_find (rtp : List Rtp) :
    h264payload rtp =
      (rtp.find? (fun r => decide (r.codec = Scalar.str "H264"))).map (fun r => r.payload) := by
  induction rtp with
  | nil => rfl
  | cons r rest ih =>
    by_cases h : r.codec = Scalar.str "H264" <;> simp [h264payload, List.find?, h, ih]

theorem h264payload_eq_none (rtp : List Rtp) (h : ∀ r ∈ rtp, r.codec ≠ Scalar.str "H264") :
    h264payload rtp = none := by
  rw [h264payload_eq_find, Option.map_eq_none', List.find?_eq_none]
  intro r hr
  simpa using h r hr

theorem strictEquals_eq (a b : Scalar) (h : strictEquals a b = true) : a = b := by
  cases a <;> cases b <;> simp [strictEquals] at h ⊢
  · exact h.1
  · exact h

theorem strictEquals_self (a : Scalar) (h : a ≠ Scalar.num "NaN") : strictEquals a a = true := by
  cases a with
  | num t =>
    have ht : t ≠ "NaN" := fun hc => h (by rw [hc])
    simp [strictEquals, ht]
  | str s => simp [strictEquals]
  | undefined => rfl

theorem hasProfileLevelId_eq_false (p : Scalar) (fmtp : List Fmtp)
    (h : ∀ f ∈ fmtp, f.payload = p →
      ∃ config, f.config = Scalar.str config ∧
        includes "profile-level-id".data config.data = false) :
    hasProfileLevelId p fmtp = Except.ok false := by
  induction fmtp with
  | nil => rfl
  | cons f rest ih =>
    have hrest := ih (fun g hg => h g (List.mem_cons_of_mem _ hg))
    have hf := h f (List.mem_cons_self _ _)
    unfold hasProfileLevelId
    by_cases hp : strictEquals f.payload p = true
    · obtain ⟨config, hc, hinc⟩ := hf (strictEquals_eq _ _ hp)
      simp [hp, hc, hinc, hrest]
    · simp [hp, hrest]

/-- C1 as stated fails: the video section offers H264 at payloads 96 and 97,
no format parameters of payload 97 name a profile-level-id, and yet
`mungeSdp` adds no entry: it looks at the first H264 entry only, payload 96,
which has one. -/
theorem mungeParsed_second_h264_entry_example :
    (∃ m ∈ twoH264Sdp.media, m.type = "video" ∧
      (∃ r ∈ m.rtp, r.codec = Scalar.str "H264" ∧ r.payload = Scalar.num "97") ∧
      ∀ f ∈ m.fmtp, f.payload = Scalar.num "97" →
        ∃ config, f.config = Scalar.str config ∧
          includes "profile-level-id".data config.data = false) ∧
    mungeParsed asciiEngine twoH264Sdp none = Except.ok twoH264Sdp := by
  refine ⟨⟨_, List.mem_cons_self _ _, rfl, by decide, ?_⟩, by decide⟩
  intro f hf hp
  simp only [List.mem_singleton] at hf
  subst hf
  exact absurd hp (by decide)

/-- C1, amended: let `media` be the first video section that has an rtp entry
of codec "H264" and `r` the first such entry of it, and let every fmtp entry
of `media` with the payload of `r` have a string config that does not contain
"profile-level-id".  Then `mungeSdp` without a preferred codec returns, and
whenever `mungeSdp` returns (with any preferred codec) the section has
exactly one fmtp entry more, at the end, the entry of that payload with
config `profile-level-id=42e01f;packetization-mode=1;level-asymmetry-allowed=1`,
and no other section's fmtp has changed. -/
theorem mungeParsed_adds_h264_fmtp (engine : Engine)
    (before : List Media) (media : Media) (after : List Media) (r : Rtp)
    (hbefore : ∀ m ∈ before, m.type = "video" → ∀ x ∈ m.rtp, x.codec ≠ Scalar.str "H264")
    (hvideo : media.type = "video")
    (hfirst : media.rtp.find? (fun x => decide (x.codec = Scalar.str "H264")) = some r)
    (hnone : ∀ f ∈ media.fmtp, f.payload = r.payload →
      ∃ config, f.config = Scalar.str config ∧
        includes "profile-level-id".data config.data = false) :
    (∃ out, mungeParsed engine { media := before ++ media :: after } none = Except.ok out) ∧
    ∀ preferredCodec out,
      mungeParsed engine { media := before ++ media :: after } preferredCodec =
        Except.ok out →
      out.media.map (fun m => m.fmtp) =
        before.map (fun m => m.fmtp) ++
          (media.fmtp ++
            [{ payload := r.payload,
               config := Scalar.str
                "profile-level-id=42e01f;packetization-mode=1;level-asymmetry-allowed=1" }]) ::
          after.map (fun m => m.fmtp) := by
  have hp : h264payload media.rtp = some r.payload := by
    rw [h264payload_eq_find, hfirst]; rfl
  have hb : ∀ x ∈ before, isH264Video x = false := by
    intro m hm
    by_cases hv : m.type = "video"
    · simp [isH264Video, h264payload_eq_none m.rtp (hbefore m hm hv)]
    · simp [isH264Video, isVideo, hv]
  have hm : isH264Video media = true := by simp [isH264Video, isVideo, hvideo, hp]
  have hdec : h264Decision (before ++ media :: after) =
      Except.ok (some (canonicalFmtp r.payload)) := by
    simp only [h264Decision, find_append isH264Video before media after hb hm, hp,
      hasProfileLevelId_eq_false r.payload media.fmtp hnone]
  constructor
  · exact ⟨_, (mungeParsed_ok_iff engine _ _ none).mpr ⟨_, none, hdec, rfl, rfl⟩⟩
  · intro c out hout
    obtain ⟨dF, dP, hF, _, hres⟩ := (mungeParsed_ok_iff engine _ out c).mp hout
    have hdF : dF = some (canonicalFmtp r.payload) := by
      have := hF.symm.trans hdec
      simpa using this
    subst hdF
    rw [hres, preferredStep_map_fmtp, fixRtcpFb_map_fmtp]
    show (updateFirst isH264Video (appendFmtp (canonicalFmtp r.payload))
      (before ++ media :: after)).map _ = _
    rw [updateFirst_append isH264Video _ before media after hb hm]
    simp [appendFmtp, canonicalFmtp, canonicalConfig]

/-- The amended C1 at an SDP whose second section is the first video section
with H264 (payload 102, format parameters without profile-level-id), munged
with the preferred codec "vp8". -/
theorem mungeParsed_adds_h264_fmtp_witness :
    ∃ out, mungeParsed asciiEngine plainH264Sdp (some "vp8") = Except.ok out ∧
      out.media.map (fun m => m.fmtp) =
        [[], [⟨Scalar.num "102", Scalar.str "packetization-mode=1"⟩,
              ⟨Scalar.num "102", Scalar.str
                "profile-level-id=42e01f;packetization-mode=1;level-asymmetry-allowed=1"⟩],
         []] :=
  have hno : ∀ f ∈ plainVideo.fmtp, f.payload = Scalar.num "102" →
      ∃ config, f.config = Scalar.str config ∧
        includes "profile-level-id".data config.data = false := by
    intro f hf _
    simp only [plainVideo, List.mem_singleton] at hf
    subst hf
    exact ⟨"packetization-mode=1", rfl, by decide⟩
  have h := mungeParsed_adds_h264_fmtp asciiEngine [plainAudio] plainVideo [plainSecondVideo]
    ⟨Scalar.num "102", Scalar.str "H264"⟩ (by decide) (by decide) (by decide) hno
  ⟨{ media := [plainAudio, appendFmtp (canonicalFmtp (Scalar.num "102")) plainVideo,
               plainSecondVideo] },
    by decide, h.2 (some "vp8") _ (by decide)⟩

/-- A config that the parser made a number stops the H264 fixup: on
`a=fmtp:96 1` with H264 at payload 96, line 100 asks the number 1 for
`indexOf` and `mungeSdp` throws. -/
theorem mungeParsed_numeric_config_example :
    mungeParsed asciiEngine numericConfigSdp none =
      Except.error (JsError.typeError "fmtp.config.indexOf") := by
  decide

/-! ## Numerals, split and join -/

theorem digitChar_isDigit (d : Nat) (h : d < 10) : (digitChar d).isDigit = true := by
  interval_cases d <;> decide

theorem digitChar_value (d : Nat) (h : d < 10) : (digitChar d).toNat - 48 = d := by
  interval_cases d <;> decide

theorem isDigit_ne_space (c : Char) (h : c.isDigit = true) : c ≠ ' ' := by
  intro hc; rw [hc] at h; exact absurd h (by decide)

theorem isDigit_ne_minus (c : Char) (h : c.isDigit = true) : c ≠ '-' := by
  intro hc; rw [hc] at h; exact absurd h (by decide)

theorem isDigit_ne_plus (c : Char) (h : c.isDigit = true) : c ≠ '+' := by
  intro hc; rw [hc] at h; exact absurd h (by decide)

theorem isDigit_not_whiteSpace (c : Char) (h : c.isDigit = true) : jsWhiteSpace c = false := by
  have h1 : 48 ≤ c.toNat ∧ c.toNat ≤ 57 := by
    simp only [Char.isDigit, Bool.and_eq_true, decide_eq_true_eq] at h
    exact ⟨h.1, h.2⟩
  simp only [jsWhiteSpace, Bool.or_eq_false_iff, Bool.and_eq_false_iff, decide_eq_false_iff_not]
  omega

theorem natDigits_acc (fuel n : Nat) (acc : List Char) :
    natDigits fuel n acc = natDigits fuel n [] ++ acc := by
  induction fuel generalizing n acc with
  | zero => rfl
  | succ fuel ih =>
    unfold natDigits
    by_cases h : n < 10
    · simp [h]
    · simp only [h, if_false]
      rw [ih (n / 10) (digitChar (n % 10) :: acc), ih (n / 10) [digitChar (n % 10)]]
      simp

theorem digitsValue_append (ds : List Char) (c : Char) :
    digitsValue (ds ++ [c]) = 10 * digitsValue ds + (c.toNat - 48) := by
  simp [digitsValue, List.foldl_append]

theorem natDigits_spec (fuel n : Nat) (h : n < fuel) :
    natDigits fuel n [] ≠ [] ∧ (∀ c ∈ natDigits fuel n [], c.isDigit = true) ∧
      digitsValue (natDigits fuel n []) = n := by
  induction fuel generalizing n with
  | zero => omega
  | succ fuel ih =>
    unfold natDigits
    by_cases h10 : n < 10
    · simp only [h10, if_true]
      refine ⟨by simp, ?_, ?_⟩
      · intro c hc
        simp only [List.mem_singleton] at hc
        rw [hc]; exact digitChar_isDigit n h10
      · simp [digitsValue, digitChar_value n h10]
    · simp only [h10, if_false]
      have hlt : n / 10 < fuel := by omega
      obtain ⟨hne, hdig, hval⟩ := ih (n / 10) hlt
      rw [natDigits_acc]
      refine ⟨by simp, ?_, ?_⟩
      · intro c hc
        rcases List.mem_append.mp hc with hc | hc
        · exact hdig c hc
        · simp only [List.mem_singleton] at hc
          rw [hc]; exact digitChar_isDigit _ (Nat.mod_lt _ (by decide))
      · rw [digitsValue_append, hval, digitChar_value _ (Nat.mod_lt _ (by decide))]
        omega

theorem natChars_spec (n : Nat) :
    natChars n ≠ [] ∧ (∀ c ∈ natChars n, c.isDigit = true) ∧ digitsValue (natChars n) = n :=
  natDigits_spec (n + 1) n (Nat.lt_succ_self n)

theorem natChars_injective : Function.Injective natChars := by
  intro a b h
  have ha := (natChars_spec a).2.2
  rw [h, (natChars_spec b).2.2] at ha
  exact ha.symm

theorem natChars_no_space (n : Nat) : ∀ c ∈ natChars n, c ≠ ' ' :=
  fun c hc => isDigit_ne_space c ((natChars_spec n).2.1 c hc)

theorem natText_ne_NaN (n : Nat) : natText n ≠ "NaN" := by
  intro h
  have hdata : natChars n = ['N', 'a', 'N'] := congrArg String.data h
  have := (natChars_spec n).2.1 'N' (by rw [hdata]; simp)
  exact absurd this (by decide)

theorem natText_eq_zero (n : Nat) (h : natText n = "0") : n = 0 := by
  have hdata : natChars n = natChars 0 := congrArg String.data h
  exact natChars_injective hdata

theorem truthy_natText (n : Nat) (h : n ≠ 0) : truthy (Scalar.num (natText n)) = true := by
  simp only [truthy, decide_eq_true_eq]
  exact ⟨fun h0 => h (natText_eq_zero n h0), natText_ne_NaN n⟩

theorem takeWhile_all (p : Char → Bool) (ds : List Char) (h : ∀ c ∈ ds, p c = true) :
    ds.takeWhile p = ds := by
  induction ds with
  | nil => rfl
  | cons c cs ih =>
    simp [List.takeWhile, h c (List.mem_cons_self _ _),
      ih (fun x hx => h x (List.mem_cons_of_mem _ hx))]

theorem parseIntBody_digits (ds : List Char) (hne : ds ≠ []) (h : ∀ c ∈ ds, c.isDigit = true) :
    parseIntBody ds = (false, ds) ∧ parseIntBody ('-' :: ds) = (true, ds) := by
  cases ds with
  | nil => exact absurd rfl hne
  | cons d rest =>
    have hd := h d (List.mem_cons_self _ _)
    have htake : (d :: rest).takeWhile Char.isDigit = d :: rest := takeWhile_all _ _ h
    have hws := isDigit_not_whiteSpace d hd
    constructor
    · unfold parseIntBody
      have hdrop : (d :: rest).dropWhile jsWhiteSpace = d :: rest := by
        simp [List.dropWhile, hws]
      rw [hdrop]
      split
      · rename_i r heq
        injection heq with h1 h2
        exact absurd h1 (isDigit_ne_minus d hd)
      · rename_i r heq
        injection heq with h1 h2
        exact absurd h1 (isDigit_ne_plus d hd)
      · rw [htake]
    · unfold parseIntBody
      have hdrop : ('-' :: d :: rest).dropWhile jsWhiteSpace = '-' :: d :: rest := by
        have : jsWhiteSpace '-' = false := by decide
        simp [List.dropWhile, this]
      rw [hdrop]
      show (true, (d :: rest).takeWhile Char.isDigit) = (true, d :: rest)
      rw [htake]

theorem parseIntBody_isDigit (cs : List Char) : ∀ c ∈ (parseIntBody cs).2, c.isDigit = true := by
  intro c hc
  unfold parseIntBody at hc
  split at hc <;> exact (List.mem_takeWhile_imp hc)

theorem parseInt_of_body (engine : Engine) (p : List Char) (negative : Bool)
    (d : Char) (ds : List Char) (hbody : parseIntBody p = (negative, d :: ds))
    (hexact : digitsValue (d :: ds) < exactLimit) :
    parseInt engine p =
      if negative = true ∧ digitsValue (d :: ds) ≠ 0 then '-' :: natChars (digitsValue (d :: ds))
      else natChars (digitsValue (d :: ds)) := by
  simp only [parseInt, hbody, hexact, if_true]

theorem parseInt_natChars (engine : Engine) (n : Nat) (h : n < exactLimit) :
    parseInt engine (natChars n) = natChars n := by
  obtain ⟨hne, hdig, hval⟩ := natChars_spec n
  cases hcs : natChars n with
  | nil => exact absurd hcs hne
  | cons d ds =>
    rw [hcs] at hne hdig hval
    rw [parseInt_of_body engine (d :: ds) false d ds (parseIntBody_digits _ hne hdig).1
      (by rw [hval]; exact h)]
    simp [hval, hcs]

theorem parseInt_minus_natChars (engine : Engine) (n : Nat) (h : n < exactLimit)
    (h0 : n ≠ 0) : parseInt engine ('-' :: natChars n) = '-' :: natChars n := by
  obtain ⟨hne, hdig, hval⟩ := natChars_spec n
  cases hcs : natChars n with
  | nil => exact absurd hcs hne
  | cons d ds =>
    rw [hcs] at hne hdig hval
    rw [parseInt_of_body engine ('-' :: d :: ds) true d ds (parseIntBody_digits _ hne hdig).2
      (by rw [hval]; exact h)]
    simp [hval, h0, hcs]

theorem stableText_natChars (engine : Engine) (n : Nat) (h : n < exactLimit) :
    stableText engine (natChars n) :=
  ⟨natChars_no_space n, parseInt_natChars engine n h⟩

/-- What `parseInt` returns for an entry that is not a numeral of 2^53 or
more is a number text that the next `join`, `split` and `parseInt` preserve. -/
theorem stableText_parseInt (engine : Engine) (p : List Char)
    (hexact : digitsValue (parseIntBody p).2 < exactLimit) :
    stableText engine (parseInt engine p) := by
  cases hbody : parseIntBody p with
  | mk negative digits =>
    rw [hbody] at hexact
    cases digits with
    | nil =>
      have hnan : parseInt engine p = ['N', 'a', 'N'] := by simp only [parseInt, hbody]
      rw [hnan]
      exact ⟨by decide, rfl⟩
    | cons d ds =>
      rw [parseInt_of_body engine p negative d ds hbody hexact]
      by_cases hneg : negative = true ∧ digitsValue (d :: ds) ≠ 0
      · rw [if_pos hneg]
        refine ⟨?_, parseInt_minus_natChars engine _ hexact hneg.2⟩
        intro c hc
        rcases List.mem_cons.mp hc with hc | hc
        · rw [hc]; decide
        · exact natChars_no_space _ c hc
      · rw [if_neg hneg]
        exact stableText_natChars engine _ hexact

theorem splitChars_no_space (w : List Char) (h : ∀ c ∈ w, c ≠ ' ') : splitChars w = [w] := by
  induction w with
  | nil => rfl
  | cons c cs ih =>
    have hc := h c (List.mem_cons_self _ _)
    simp [splitChars, hc, ih (fun x hx => h x (List.mem_cons_of_mem _ hx)), consFirst]

theorem splitChars_append (w rest : List Char) (h : ∀ c ∈ w, c ≠ ' ') :
    splitChars (w ++ ' ' :: rest) = w :: splitChars rest := by
  induction w with
  | nil => simp [splitChars]
  | cons c cs ih =>
    have hc := h c (List.mem_cons_self _ _)
    simp [splitChars, hc, ih (fun x hx => h x (List.mem_cons_of_mem _ hx)), consFirst]

theorem splitChars_joinChars (ws : List (List Char)) (hne : ws ≠ [])
    (h : ∀ w ∈ ws, ∀ c ∈ w, c ≠ ' ') : splitChars (joinChars ws) = ws := by
  induction ws with
  | nil => exact absurd rfl hne
  | cons w rest ih =>
    cases rest with
    | nil => exact splitChars_no_space w (h w (List.mem_cons_self _ _))
    | cons v rest2 =>
      show splitChars (w ++ ' ' :: joinChars (v :: rest2)) = _
      rw [splitChars_append w _ (h w (List.mem_cons_self _ _)),
        ih (by simp) (fun x hx => h x (List.mem_cons_of_mem _ hx))]

theorem indexOf_head {α : Type} [DecidableEq α] (x : α) (xs : List α) :
    indexOf x (x :: xs) = 0 := by
  simp [indexOf]

theorem splice1_zero {α : Type} (x : α) (xs : List α) : splice1 (x :: xs) 0 = xs := by
  have h : min (0 : Int) ((xs.length : Int) + 1) = 0 := by omega
  simp [splice1, h]

theorem mem_splice1 {α : Type} (xs : List α) (start : Int) (x : α)
    (h : x ∈ splice1 xs start) : x ∈ xs :=
  List.mem_of_mem_eraseIdx h

theorem indexOfNumber_natText (n : Nat) (ts : List (List Char)) :
    indexOfNumber (Scalar.num (natText n)) ts = indexOf (natChars n) ts := by
  simp only [indexOfNumber, natText_ne_NaN n, if_false]
  rfl

/-- A payload string that line 141 wrote for a number below 2^53, from a list
whose entries `parseInt` reads exactly, is left as it is by lines 136-141. -/
theorem reorderPayloads_idem (engine : Engine) (n : Nat) (hn : n < exactLimit) (s : String)
    (hexact : ∀ entry ∈ splitChars s.data, digitsValue (parseIntBody entry).2 < exactLimit) :
    reorderPayloads engine (Scalar.num (natText n))
        (reorderPayloads engine (Scalar.num (natText n)) s) =
      reorderPayloads engine (Scalar.num (natText n)) s := by
  let spliced := splice1 ((splitChars s.data).map (parseInt engine))
    (indexOfNumber (Scalar.num (natText n)) ((splitChars s.data).map (parseInt engine)))
  have hdata : (reorderPayloads engine (Scalar.num (natText n)) s).data =
      joinChars (natChars n :: spliced) := rfl
  have hstable : ∀ t ∈ natChars n :: spliced, stableText engine t := by
    intro t ht
    rcases List.mem_cons.mp ht with ht | ht
    · rw [ht]; exact stableText_natChars engine n hn
    · have hmem := mem_splice1 _ _ t ht
      obtain ⟨entry, hentry, hparse⟩ := List.mem_map.mp hmem
      rw [← hparse]
      exact stableText_parseInt engine entry (hexact entry hentry)
  have hsplit : splitChars (joinChars (natChars n :: spliced)) = natChars n :: spliced :=
    splitChars_joinChars _ (by simp) (fun t ht => (hstable t ht).1)
  have hparse : (natChars n :: spliced).map (parseInt engine) = natChars n :: spliced := by
    conv_rhs => rw [← List.map_id (natChars n :: spliced)]
    exact List.map_congr_left (fun t ht => (hstable t ht).2)
  show String.mk (joinChars ((jsString (Scalar.num (natText n))).data ::
    splice1 ((splitChars (reorderPayloads engine (Scalar.num (natText n)) s).data).map
      (parseInt engine))
      (indexOfNumber (Scalar.num (natText n))
        ((splitChars (reorderPayloads engine (Scalar.num (natText n)) s).data).map
          (parseInt engine))))) = _
  rw [hdata, hsplit, hparse, indexOfNumber_natText, indexOf_head, splice1_zero]
  rfl

/-! ## The fixups in other orders -/

theorem fixH264_of_decision (l : List Media) (d : Option Fmtp)
    (h : h264Decision l = Except.ok d) : fixH264 l = Except.ok (h264Step d l) := by
  rw [fixH264_eq, h]

theorem fixPreferredOpt_of_decision (engine : Engine) (c : Option String) (l : List Media)
    (d : Option String) (h : preferredDecisionOpt engine c l = Except.ok d) :
    fixPreferredOpt engine c l = Except.ok (preferredStep d l) := by
  rw [fixPreferredOpt_eq, h]

theorem sameMembers_iff (xs ys : List String) (h : sameMembers xs ys = true) (a : String) :
    a ∈ xs ↔ a ∈ ys := by
  simp only [sameMembers, Bool.and_eq_true, List.all_eq_true, decide_eq_true_eq] at h
  exact ⟨h.1 a, h.2 a⟩

theorem setPayloads_filterRtcpFb (s : String) (v : Media)
    (h : sameMembers (payloadList v.payloads) (payloadList (Scalar.str s)) = true) :
    setPayloads s (filterRtcpFb v) = filterRtcpFb (setPayloads s v) := by
  have hpred : (fun item : RtcpFb => decide (jsString item.payload ∈ payloadList v.payloads)) =
      (fun item : RtcpFb => decide (jsString item.payload ∈ payloadList (Scalar.str s))) := by
    funext item
    exact decide_eq_decide.mpr (sameMembers_iff _ _ h _)
  simp only [setPayloads, filterRtcpFb, hpred]

theorem setPayloads_fixRtcpFb (s : String) (l : List Media)
    (h : ∀ v, l.find? isVideo = some v →
      sameMembers (payloadList v.payloads) (payloadList (Scalar.str s)) = true) :
    updateFirst isVideo (setPayloads s) (fixRtcpFb l) =
      fixRtcpFb (updateFirst isVideo (setPayloads s) l) :=
  updateFirst_map_comm isVideo (setPayloads s) filterRtcpFb l (fun _ => rfl)
    (fun v hv => setPayloads_filterRtcpFb s v (h v hv))

theorem map_payloads_setPayloads_fixRtcpFb (s : String) (l : List Media) :
    (updateFirst isVideo (setPayloads s) (fixRtcpFb l)).map (fun m => m.payloads) =
      (updateFirst isVideo (setPayloads s) l).map (fun m => m.payloads) :=
  map_updateFirst_map isVideo (setPayloads s) filterRtcpFb (fun m => m.payloads)
    (fun _ => rfl) (fun _ => rfl) (fun _ => rfl) l

theorem mem_zip_updateFirst (s : String) (l : List Media) (v : Media)
    (h : l.find? isVideo = some v) :
    (v.payloads, Scalar.str s) ∈
      List.zip (l.map (fun m => m.payloads))
        ((updateFirst isVideo (setPayloads s) l).map (fun m => m.payloads)) := by
  induction l with
  | nil => simp at h
  | cons m rest ih =>
    by_cases hm : isVideo m = true
    · simp only [List.find?, hm, Option.some.injEq] at h
      subst h
      simp [updateFirst, hm, setPayloads]
    · simp only [List.find?, hm] at h
      have := ih h
      rw [updateFirst, if_neg hm]
      simp only [List.map_cons, List.zip_cons_cons, List.mem_cons]
      exact Or.inr this

theorem find_payloads_h264Step (d : Option Fmtp) (l : List Media) (w : Media)
    (hw : (h264Step d l).find? isVideo = some w) :
    ∃ v, l.find? isVideo = some v ∧ v.payloads = w.payloads := by
  cases d with
  | none => exact ⟨w, hw, rfl⟩
  | some f =>
    have h := find_map_updateFirst isVideo isH264Video (appendFmtp f) (fun m => m.payloads)
      (fun _ => rfl) (fun _ => rfl) l
    have hw2 : (updateFirst isH264Video (appendFmtp f) l).find? isVideo = some w := hw
    rw [hw2] at h
    cases hv : l.find? isVideo with
    | none => simp [hv] at h
    | some v =>
      simp only [hv, Option.map_some', Option.some.injEq] at h
      exact ⟨v, rfl, h.symm⟩

theorem mem_sixOrders (order : List Fixup) (h : order ∈ sixOrders) :
    order = [Fixup.h264, Fixup.rtcpFb, Fixup.preferred] ∨
    order = [Fixup.h264, Fixup.preferred, Fixup.rtcpFb] ∨
    order = [Fixup.rtcpFb, Fixup.h264, Fixup.preferred] ∨
    order = [Fixup.rtcpFb, Fixup.preferred, Fixup.h264] ∨
    order = [Fixup.preferred, Fixup.h264, Fixup.rtcpFb] ∨
    order = [Fixup.preferred, Fixup.rtcpFb, Fixup.h264] := by
  simpa [sixOrders] using h

/-- With both decisions taken on `x` and the preferred-codec step commuting
with the feedback filter after the H264 step, every order gives the source's
result. -/
theorem applyFixups_of_commute (engine : Engine) (c : Option String) (x : List Media)
    (dF : Option Fmtp) (dP : Option String)
    (hF : h264Decision x = Except.ok dF)
    (hP : preferredDecisionOpt engine c x = Except.ok dP)
    (hC : preferredStep dP (fixRtcpFb (h264Step dF x)) =
      fixRtcpFb (preferredStep dP (h264Step dF x)))
    (order : List Fixup) (horder : order ∈ sixOrders) :
    applyFixups engine c order x =
      Except.ok (preferredStep dP (fixRtcpFb (h264Step dF x))) := by
  have f1 : fixH264 x = Except.ok (h264Step dF x) := fixH264_of_decision x dF hF
  have f2 : fixH264 (fixRtcpFb x) = Except.ok (h264Step dF (fixRtcpFb x)) :=
    fixH264_of_decision _ dF ((h264Decision_fixRtcpFb x).trans hF)
  have f3 : fixH264 (preferredStep dP x) = Except.ok (h264Step dF (preferredStep dP x)) :=
    fixH264_of_decision _ dF ((h264Decision_preferredStep dP x).trans hF)
  have f4 : fixH264 (preferredStep dP (fixRtcpFb x)) =
      Except.ok (h264Step dF (preferredStep dP (fixRtcpFb x))) :=
    fixH264_of_decision _ dF
      ((h264Decision_preferredStep dP _).trans ((h264Decision_fixRtcpFb x).trans hF))
  have f5 : fixH264 (fixRtcpFb (preferredStep dP x)) =
      Except.ok (h264Step dF (fixRtcpFb (preferredStep dP x))) :=
    fixH264_of_decision _ dF
      ((h264Decision_fixRtcpFb _).trans ((h264Decision_preferredStep dP x).trans hF))
  have p1 : fixPreferredOpt engine c x = Except.ok (preferredStep dP x) :=
    fixPreferredOpt_of_decision engine c x dP hP
  have p2 : fixPreferredOpt engine c (h264Step dF x) =
      Except.ok (preferredStep dP (h264Step dF x)) :=
    fixPreferredOpt_of_decision engine c _ dP
      ((preferredDecisionOpt_h264Step engine c dF x).trans hP)
  have p3 : fixPreferredOpt engine c (fixRtcpFb x) =
      Except.ok (preferredStep dP (fixRtcpFb x)) :=
    fixPreferredOpt_of_decision engine c _ dP
      ((preferredDecisionOpt_fixRtcpFb engine c x).trans hP)
  have p4 : fixPreferredOpt engine c (fixRtcpFb (h264Step dF x)) =
      Except.ok (preferredStep dP (fixRtcpFb (h264Step dF x))) :=
    fixPreferredOpt_of_decision engine c _ dP
      ((preferredDecisionOpt_fixRtcpFb engine c _).trans
        ((preferredDecisionOpt_h264Step engine c dF x).trans hP))
  have hA := h264Step_fixRtcpFb dF x
  have hA2 := h264Step_fixRtcpFb dF (preferredStep dP x)
  have hB := preferredStep_h264Step dP dF x
  have hB2 := preferredStep_h264Step dP dF (fixRtcpFb x)
  rcases mem_sixOrders order horder with h | h | h | h | h | h <;> subst h
  · simp only [applyFixups, applyFixup, f1, p4]
  · simp only [applyFixups, applyFixup, f1, p2, hC]
  · simp only [applyFixups, applyFixup, f2, hA, p4]
  · simp only [applyFixups, applyFixup, p3, f4, ← hB2, hA]
  · simp only [applyFixups, applyFixup, p1, f3, ← hB, hC]
  · simp only [applyFixups, applyFixup, p1, f5, hA2, ← hB, hC]

/-- C9 as stated fails: on a video section whose payload list and feedback
entry spell payload 96 as "096", with VP9 (payload 97) preferred, the
source's order keeps the feedback entry "096" (it is in the list when the
filter runs), while reordering first rewrites the list to "97 96" and the
filter then drops the entry. -/
theorem fixups_order_matters_example :
    mungeParsed asciiEngine leadingZeroSdp (some "vp9") =
        Except.ok { media := [{ type := "video", payloads := Scalar.str "97 96",
                                rtp := [⟨Scalar.num "96", Scalar.str "VP8"⟩,
                                        ⟨Scalar.num "97", Scalar.str "VP9"⟩],
                                fmtp := [],
                                rtcpFb := some [⟨Scalar.str "096", "nack"⟩,
                                                ⟨Scalar.num "97", "nack"⟩],
                                direction := some "sendrecv" }] } ∧
      [Fixup.preferred, Fixup.rtcpFb, Fixup.h264] ∈ sixOrders ∧
      applyFixups asciiEngine (some "vp9") [Fixup.preferred, Fixup.rtcpFb, Fixup.h264]
          leadingZeroSdp.media =
        Except.ok [{ type := "video", payloads := Scalar.str "97 96",
                     rtp := [⟨Scalar.num "96", Scalar.str "VP8"⟩,
                             ⟨Scalar.num "97", Scalar.str "VP9"⟩],
                     fmtp := [],
                     rtcpFb := some [⟨Scalar.num "97", "nack"⟩],
                     direction := some "sendrecv" }] := by
  decide

/-- C9, amended: for every parsed SDP and preferred codec for which
`mungeSdp` succeeds and leaves every section's payload list with the same
entries as before (in any order), applying the three fixups in any of the six
orders succeeds and yields the media sections the source's order yields. -/
theorem fixups_order_insensitive (engine : Engine) (sdp out : ParsedSdp)
    (preferredCodec : Option String)
    (hout : mungeParsed engine sdp preferredCodec = Except.ok out)
    (hsame : ∀ p ∈ List.zip (sdp.media.map (fun m => m.payloads))
        (out.media.map (fun m => m.payloads)),
      sameMembers (payloadList p.1) (payloadList p.2) = true)
    (order : List Fixup) (horder : order ∈ sixOrders) :
    applyFixups engine preferredCodec order sdp.media = Except.ok out.media := by
  obtain ⟨dF, dP, hF, hP, hres⟩ := (mungeParsed_ok_iff engine sdp out preferredCodec).mp hout
  rw [hres]
  refine applyFixups_of_commute engine preferredCodec sdp.media dF dP hF hP ?_ order horder
  cases dP with
  | none => rfl
  | some s =>
    apply setPayloads_fixRtcpFb
    intro w hw
    obtain ⟨v, hv, hvw⟩ := find_payloads_h264Step dF sdp.media w hw
    have hpay : out.media.map (fun m => m.payloads) =
        (updateFirst isVideo (setPayloads s) sdp.media).map (fun m => m.payloads) := by
      rw [hres]
      show (updateFirst isVideo (setPayloads s) (fixRtcpFb (h264Step dF sdp.media))).map _ = _
      rw [map_payloads_setPayloads_fixRtcpFb]
      have hB := preferredStep_h264Step (some s) dF sdp.media
      simp only [preferredStep] at hB
      rw [hB, h264Step_map_payloads]
    have := hsame (v.payloads, Scalar.str s)
      (by rw [hpay]; exact mem_zip_updateFirst s sdp.media v hv)
    rw [← hvw]
    exact this

/-- The amended C9 at an SDP with an audio and a video section, H264
preferred: running the preferred-codec step first and the H264 fixup last
gives the same sections as the source's order. -/
theorem fixups_order_insensitive_witness :
    applyFixups asciiEngine (some "h264") [Fixup.preferred, Fixup.rtcpFb, Fixup.h264]
        usualSdp.media = Except.ok usualSdpMunged.media :=
  fixups_order_insensitive asciiEngine usualSdp usualSdpMunged (some "h264") (by decide)
    (by decide) [Fixup.preferred, Fixup.rtcpFb, Fixup.h264] (by decide)

/-! ## Munging twice -/

theorem hasProfileLevelId_append (p : Scalar) (fmtp : List Fmtp)
    (h : hasProfileLevelId p fmtp = Except.ok false) :
    hasProfileLevelId p (fmtp ++ [canonicalFmtp p]) = Except.ok (strictEquals p p) := by
  induction fmtp with
  | nil =>
    have hinc : includes "profile-level-id".data canonicalConfig.data = true := by decide
    show hasProfileLevelId p [canonicalFmtp p] = _
    by_cases hp : strictEquals p p = true
    · simp [hasProfileLevelId, canonicalFmtp, hinc, hp]
    · simp only [Bool.not_eq_true] at hp
      simp [hasProfileLevelId, canonicalFmtp, hp]
  | cons f rest ih =>
    show hasProfileLevelId p (f :: (rest ++ [canonicalFmtp p])) = _
    unfold hasProfileLevelId at h ⊢
    by_cases hp : strictEquals f.payload p = true
    · simp only [hp, if_true] at h ⊢
      cases hc : f.config with
      | num t => simp [hc] at h
      | undefined => simp [hc] at h
      | str config =>
        simp only [hc] at h ⊢
        by_cases hinc : includes "profile-level-id".data config.data = true
        · simp [hinc] at h
        · simp only [hinc, if_false] at h ⊢
          exact ih h
    · simp only [hp, if_false] at h ⊢
      exact ih h

theorem h264payload_mem (rtp : List Rtp) (p : Scalar) (h : h264payload rtp = some p) :
    ∃ r ∈ rtp, r.payload = p := by
  induction rtp with
  | nil => simp [h264payload] at h
  | cons r rest ih =>
    unfold h264payload at h
    by_cases hc : r.codec = Scalar.str "H264"
    · simp only [hc, if_true, Option.some.injEq] at h
      exact ⟨r, List.mem_cons_self _ _, h⟩
    · simp only [hc, if_false] at h
      obtain ⟨r2, hr2, hp2⟩ := ih h
      exact ⟨r2, List.mem_cons_of_mem _ hr2, hp2⟩

/-- After the H264 fixup the first loop of `mungeSdp` runs through again, and
it finds nothing to push unless the H264 payload is NaN, which equals no
payload, its own entry included. -/
theorem h264Decision_h264Step (l : List Media) (d : Option Fmtp)
    (h : h264Decision l = Except.ok d) :
    ∃ d2, h264Decision (h264Step d l) = Except.ok d2 ∧
      ((∀ m ∈ l, ∀ r ∈ m.rtp, r.payload ≠ Scalar.num "NaN") → d2 = none) := by
  cases d with
  | none => exact ⟨none, h, fun _ => rfl⟩
  | some f =>
    unfold h264Decision at h
    show ∃ d2, h264Decision (updateFirst isH264Video (appendFmtp f) l) = Except.ok d2 ∧ _
    unfold h264Decision
    rw [find_updateFirst isH264Video (appendFmtp f) l (fun _ => rfl)]
    cases hv : l.find? isH264Video with
    | none => simp [hv] at h
    | some v =>
      simp only [hv] at h
      cases hp : h264payload v.rtp with
      | none => simp [hp] at h
      | some p =>
        simp only [hp] at h
        cases hh : hasProfileLevelId p v.fmtp with
        | error e => simp [hh] at h
        | ok b =>
          cases b with
          | true => simp [hh] at h
          | false =>
            simp only [hh, Except.ok.injEq, Option.some.injEq] at h
            subst h
            have hp2 : h264payload (appendFmtp (canonicalFmtp p) v).rtp = some p := hp
            have hf2 : (appendFmtp (canonicalFmtp p) v).fmtp = v.fmtp ++ [canonicalFmtp p] := rfl
            simp only [Option.map_some', hp2, hf2, hasProfileLevelId_append p v.fmtp hh]
            by_cases hs : strictEquals p p = true
            · rw [hs]
              exact ⟨none, rfl, fun _ => rfl⟩
            · simp only [Bool.not_eq_true] at hs
              rw [hs]
              refine ⟨some (canonicalFmtp p), rfl, fun hnan => ?_⟩
              obtain ⟨r, hr, hrp⟩ := h264payload_mem v.rtp p hp
              have hne := hnan v (List.mem_of_find?_eq_some hv) r hr
              rw [hrp] at hne
              rw [strictEquals_self p hne] at hs
              cases hs

theorem preferredPayload_mem (engine : Engine) (c : String) (rtp : List Rtp)
    (payloadType : Scalar) (h : preferredPayload engine c rtp = Except.ok (some payloadType)) :
    ∃ r ∈ rtp, r.payload = payloadType := by
  induction rtp with
  | nil => simp [preferredPayload] at h
  | cons r rest ih =>
    unfold preferredPayload at h
    by_cases ht : truthy r.codec = true
    · simp only [ht, if_true] at h
      cases hc : r.codec with
      | num t => simp [hc] at h
      | undefined => simp [hc] at h
      | str codec =>
        simp only [hc] at h
        by_cases heq : engine.toLowerCase codec = engine.toLowerCase c
        · simp only [heq, if_true, Except.ok.injEq, Option.some.injEq] at h
          exact ⟨r, List.mem_cons_self _ _, h⟩
        · simp only [heq, if_false] at h
          obtain ⟨r2, hr2, hp2⟩ := ih h
          exact ⟨r2, List.mem_cons_of_mem _ hr2, hp2⟩
    · simp only [ht] at h
      obtain ⟨r2, hr2, hp2⟩ := ih h
      exact ⟨r2, List.mem_cons_of_mem _ hr2, hp2⟩

theorem preferredPayloads_some (engine : Engine) (c s : String) (v : Media)
    (h : preferredPayloads engine c v = Except.ok (some s)) :
    ∃ payloadType s0, preferredPayload engine c v.rtp = Except.ok (some payloadType) ∧
      truthy payloadType = true ∧ v.payloads = Scalar.str s0 ∧
      s = reorderPayloads engine payloadType s0 := by
  unfold preferredPayloads at h
  cases hq : preferredPayload engine c v.rtp with
  | error e => simp [hq] at h
  | ok d =>
    cases d with
    | none => simp [hq] at h
    | some payloadType =>
      by_cases ht : truthy payloadType = true
      · cases hpay : v.payloads with
        | num n => simp [hq, ht, hpay] at h
        | undefined => simp [hq, ht, hpay] at h
        | str s0 =>
          simp only [hq, ht, hpay, if_true, Except.ok.injEq, Option.some.injEq] at h
          exact ⟨payloadType, s0, rfl, ht, rfl, h.symm⟩
      · simp [hq, ht] at h

/-- The preferred-codec step run again after itself: it succeeds, decides
nothing where it decided nothing, and where it wrote the string `s` it now
writes what lines 136-141 make of `s`. -/
theorem preferredDecisionOpt_after (engine : Engine) (c : Option String) (l : List Media)
    (d : Option String) (h : preferredDecisionOpt engine c l = Except.ok d) :
    ∃ d2, preferredDecisionOpt engine c (preferredStep d l) = Except.ok d2 ∧
      (d = none → d2 = none) ∧
      ∀ s, d = some s → ∃ v r s0, l.find? isVideo = some v ∧ r ∈ v.rtp ∧
        truthy r.payload = true ∧ v.payloads = Scalar.str s0 ∧
        s = reorderPayloads engine r.payload s0 ∧
        d2 = some (reorderPayloads engine r.payload s) := by
  cases d with
  | none => exact ⟨none, h, fun _ => rfl, fun s hs => by cases hs⟩
  | some s =>
    cases c with
    | none => simp [preferredDecisionOpt] at h
    | some c =>
      simp only [preferredDecisionOpt, preferredDecision] at h
      cases hv : l.find? isVideo with
      | none => simp [hv] at h
      | some v =>
        simp only [hv] at h
        obtain ⟨payloadType, s0, hq, ht, hpay, hs⟩ := preferredPayloads_some engine c s v h
        obtain ⟨r, hr, hrp⟩ := preferredPayload_mem engine c v.rtp payloadType hq
        subst hrp
        refine ⟨some (reorderPayloads engine r.payload s), ?_, ?_, ?_⟩
        · show preferredDecision engine c (updateFirst isVideo (setPayloads s) l) = _
          unfold preferredDecision
          rw [find_updateFirst isVideo (setPayloads s) l (fun _ => rfl), hv]
          have hq2 : preferredPayload engine c (setPayloads s v).rtp =
              Except.ok (some r.payload) := hq
          have hp2 : (setPayloads s v).payloads = Scalar.str s := rfl
          simp only [Option.map_some', preferredPayloads, hq2, ht, hp2, if_true]
        · intro hn
          cases hn
        · intro s1 hs1
          injection hs1 with hs1
          subst hs1
          exact ⟨v, r, s0, rfl, hr, ht, hpay, hs, rfl⟩

theorem preferredDecisionOpt_out (engine : Engine) (c : Option String) (dF : Option Fmtp)
    (dP : Option String) (l : List Media) :
    preferredDecisionOpt engine c (preferredStep dP (fixRtcpFb (h264Step dF l))) =
      preferredDecisionOpt engine c (preferredStep dP l) := by
  cases dP with
  | none =>
    show preferredDecisionOpt engine c (fixRtcpFb (h264Step dF l)) = _
    rw [preferredDecisionOpt_fixRtcpFb, preferredDecisionOpt_h264Step]
    rfl
  | some s =>
    apply preferredDecisionOpt_congr
    show ((updateFirst isVideo (setPayloads s) (fixRtcpFb (h264Step dF l))).find? isVideo).map
      videoKey = ((updateFirst isVideo (setPayloads s) l).find? isVideo).map videoKey
    rw [find_updateFirst isVideo (setPayloads s) _ (fun _ => rfl),
      find_updateFirst isVideo (setPayloads s) _ (fun _ => rfl), Option.map_map, Option.map_map]
    have h1 := find_map_map isVideo filterRtcpFb (videoKey ∘ setPayloads s) (fun _ => rfl)
      (fun _ => rfl) (h264Step dF l)
    have h2 : ((h264Step dF l).find? isVideo).map (videoKey ∘ setPayloads s) =
        (l.find? isVideo).map (videoKey ∘ setPayloads s) := by
      cases dF with
      | none => rfl
      | some f =>
        exact find_map_updateFirst isVideo isH264Video (appendFmtp f)
          (videoKey ∘ setPayloads s) (fun _ => rfl) (fun _ => rfl) l
    exact h1.trans h2

theorem preferredStep_idem (d : Option String) (l : List Media) :
    preferredStep d (preferredStep d l) = preferredStep d l := by
  cases d with
  | none => rfl
  | some s =>
    exact updateFirst_idem isVideo (setPayloads s) l (fun _ => rfl) (fun _ => rfl)

theorem preferredStep_map_payloads_fixRtcpFb (d : Option String) (l : List Media) :
    (preferredStep d (fixRtcpFb l)).map (fun m => m.payloads) =
      (preferredStep d l).map (fun m => m.payloads) := by
  cases d with
  | none => exact fixRtcpFb_map_payloads l
  | some s => exact map_payloads_setPayloads_fixRtcpFb s l

theorem fixRtcpFb_eq_self (l : List Media)
    (h : ∀ m ∈ l, ∀ fb, m.rtcpFb = some fb →
      ∀ item ∈ fb, jsString item.payload ∈ payloadList m.payloads) : fixRtcpFb l = l := by
  unfold fixRtcpFb
  conv_rhs => rw [← List.map_id l]
  apply List.map_congr_left
  intro m hm
  cases hfb : m.rtcpFb with
  | none =>
    cases m
    simp only [filterRtcpFb, id] at hfb ⊢
    simp [hfb]
  | some fb =>
    have hall : fb.filter (fun item => decide (jsString item.payload ∈ payloadList m.payloads)) =
        fb := by
      rw [List.filter_eq_self]
      intro item hitem
      simpa using h m hm fb hfb item hitem
    cases m
    simp only [filterRtcpFb, id] at hfb hall ⊢
    simp [hfb, hall]

theorem exactNumber_spec (p : Scalar) (h : exactNumber p = true) :
    ∃ n, n < exactLimit ∧ p = Scalar.num (natText n) := by
  cases p with
  | num text =>
    simp only [exactNumber, decide_eq_true_eq] at h
    exact ⟨digitsValue text.data, h.2, by rw [← h.1]⟩
  | str s => simp [exactNumber] at h
  | undefined => simp [exactNumber] at h

/-- C10 as stated fails: munging `leadingZeroSdp` with VP9 preferred keeps
the feedback entry "096" and rewrites the payload list to "97 96"; munging
the result again drops that entry, so the second munging changes the
structure. -/
theorem mungeParsed_not_idempotent_example :
    mungeParsed asciiEngine leadingZeroSdp (some "vp9") = Except.ok leadingZeroMunged ∧
      mungeParsed asciiEngine leadingZeroMunged (some "vp9") =
        Except.ok { media := [{ type := "video", payloads := Scalar.str "97 96",
                                rtp := [⟨Scalar.num "96", Scalar.str "VP8"⟩,
                                        ⟨Scalar.num "97", Scalar.str "VP9"⟩],
                                fmtp := [],
                                rtcpFb := some [⟨Scalar.num "97", "nack"⟩],
                                direction := some "sendrecv" }] } ∧
      mungeParsed asciiEngine leadingZeroMunged (some "vp9") ≠ Except.ok leadingZeroMunged := by
  decide

theorem exactNumber_ne_NaN (p : Scalar) (h : exactNumber p = true) : p ≠ Scalar.num "NaN" := by
  obtain ⟨n, _, hp⟩ := exactNumber_spec p h
  rw [hp]
  intro hc
  injection hc with hc
  exact natText_ne_NaN n hc

/-- C10, amended: for every parsed SDP and preferred codec for which munging
succeeds, munging the munged structure again with the same preferred codec
succeeds, and it changes no fmtp list, so that the canonical entry is never
duplicated, when no rtpmap payload type is NaN (the parser yields none).
When moreover every rtpmap payload type of the SDP is a number that is a
non-negative integer below 2^53 and no entry of a payload list is a numeral
of 2^53 or more, the second munging changes no payload list, and it then
changes nothing at all if every rtcpFb entry of the munged structure
references a payload present in its section's munged payload list.  And when
the H264 payload of the first video section with an H264 entry already has an
fmtp entry containing "profile-level-id", the first munging adds no fmtp
entry either. -/
theorem mungeParsed_twice (engine : Engine) (sdp out : ParsedSdp)
    (preferredCodec : Option String)
    (hout : mungeParsed engine sdp preferredCodec = Except.ok out) :
    (∃ again, mungeParsed engine out preferredCodec = Except.ok again ∧
      ((∀ m ∈ sdp.media, ∀ r ∈ m.rtp, r.payload ≠ Scalar.num "NaN") →
        again.media.map (fun m => m.fmtp) = out.media.map (fun m => m.fmtp)) ∧
      ((∀ m ∈ sdp.media, ∀ r ∈ m.rtp, exactNumber r.payload = true) →
        (∀ m ∈ sdp.media, ∀ entry ∈ payloadList m.payloads, exactEntry entry = true) →
        again.media.map (fun m => m.payloads) = out.media.map (fun m => m.payloads) ∧
        ((∀ m ∈ out.media, ∀ fb, m.rtcpFb = some fb →
            ∀ item ∈ fb, jsString item.payload ∈ payloadList m.payloads) → again = out))) ∧
    ((∀ v, sdp.media.find? isH264Video = some v →
        ∀ p, h264payload v.rtp = some p → hasProfileLevelId p v.fmtp = Except.ok true) →
      out.media.map (fun m => m.fmtp) = sdp.media.map (fun m => m.fmtp)) := by
  obtain ⟨dF, dP, hF, hP, hres⟩ := (mungeParsed_ok_iff engine sdp out preferredCodec).mp hout
  constructor
  · obtain ⟨dF2, hdF2, hnoNaN⟩ := h264Decision_h264Step sdp.media dF hF
    have hF2 : h264Decision out.media = Except.ok dF2 := by
      rw [hres, h264Decision_preferredStep, h264Decision_fixRtcpFb]
      exact hdF2
    obtain ⟨d2, hd2, _, hsome⟩ :=
      preferredDecisionOpt_after engine preferredCodec sdp.media dP hP
    have hP2 : preferredDecisionOpt engine preferredCodec out.media = Except.ok d2 := by
      rw [hres, preferredDecisionOpt_out]
      exact hd2
    refine ⟨{ media := preferredStep d2 (fixRtcpFb (h264Step dF2 out.media)) },
      (mungeParsed_ok_iff engine out _ preferredCodec).mpr ⟨dF2, d2, hF2, hP2, rfl⟩, ?_, ?_⟩
    · intro hnan
      rw [hnoNaN hnan]
      show (preferredStep d2 (fixRtcpFb out.media)).map _ = _
      rw [preferredStep_map_fmtp, fixRtcpFb_map_fmtp]
    · intro hnum hentries
      have hdF2none : dF2 = none :=
        hnoNaN (fun m hm r hr => exactNumber_ne_NaN r.payload (hnum m hm r hr))
      subst hdF2none
      have hd : d2 = dP := by
        cases dP with
        | none =>
          obtain ⟨d3, hd3, hnone, _⟩ :=
            preferredDecisionOpt_after engine preferredCodec sdp.media none hP
          have := hd3.symm.trans hd2
          simp only [Except.ok.injEq] at this
          rw [← this]
          exact hnone rfl
        | some s =>
          obtain ⟨v, r, s0, hv, hr, _, hpay, hs, hd2s⟩ := hsome s rfl
          have hvmem : v ∈ sdp.media := List.mem_of_find?_eq_some hv
          obtain ⟨n, hn, hpn⟩ := exactNumber_spec r.payload (hnum v hvmem r hr)
          have hexact : ∀ entry ∈ splitChars s0.data,
              digitsValue (parseIntBody entry).2 < exactLimit := by
            intro entry hentry
            have hmem : String.mk entry ∈ payloadList v.payloads := by
              rw [hpay]
              exact List.mem_map.mpr ⟨entry, hentry, rfl⟩
            have := hentries v hvmem _ hmem
            simpa [exactEntry] using this
          rw [hd2s, hs, hpn, reorderPayloads_idem engine n hn s0 hexact]
      have hself : preferredStep dP out.media = out.media := by
        rw [hres, preferredStep_idem]
      constructor
      · show (preferredStep d2 (fixRtcpFb out.media)).map _ = _
        rw [hd, preferredStep_map_payloads_fixRtcpFb, hself]
      · intro hfb
        have hR := fixRtcpFb_eq_self out.media hfb
        have hm : preferredStep d2 (fixRtcpFb (h264Step none out.media)) = out.media := by
          show preferredStep d2 (fixRtcpFb out.media) = _
          rw [hR, hd]
          exact hself
        rw [hm]
  · intro hplid
    have hnone : h264Decision sdp.media = Except.ok none := by
      cases hv : sdp.media.find? isH264Video with
      | none => simp only [h264Decision, hv]
      | some v =>
        cases hp : h264payload v.rtp with
        | none => simp only [h264Decision, hv, hp]
        | some p => simp only [h264Decision, hv, hp, hplid v hv p hp]
    have hdF : dF = none := by
      have := hF.symm.trans hnone
      simpa using this
    subst hdF
    rw [hres, preferredStep_map_fmtp, fixRtcpFb_map_fmtp]
    rfl

/-- The amended C10 at the munged `usualSdp` (H264 preferred): munging it
again returns it unchanged. -/
theorem mungeParsed_twice_witness :
    mungeParsed asciiEngine usualSdpMunged (some "h264") = Except.ok usualSdpMunged :=
  have h := (mungeParsed_twice asciiEngine usualSdp usualSdpMunged (some "h264") (by decide)).1
  h.elim fun again hagain => by
    rw [hagain.1, (hagain.2.2 (by decide) (by decide)).2 (by decide)]

/-! ## getMediaDirections -/

theorem ownProperty_setProperty (key : String) (value : List (Option String))
    (d : Directions) : ownProperty key (setProperty key value d) = some value := by
  induction d with
  | nil => simp [setProperty, ownProperty]
  | cons kv rest ih =>
    obtain ⟨k, v⟩ := kv
    by_cases h : k = key <;> simp [setProperty, ownProperty, h, ih]

theorem ownProperty_setProperty_ne (key other : String) (value : List (Option String))
    (d : Directions) (hne : other ≠ key) :
    ownProperty other (setProperty key value d) = ownProperty other d := by
  induction d with
  | nil => simp [setProperty, ownProperty, Ne.symm hne]
  | cons kv rest ih =>
    obtain ⟨k, v⟩ := kv
    by_cases h : k = key
    · subst h
      simp [setProperty, ownProperty, Ne.symm hne]
    · by_cases h2 : k = other
      · subst h2
        simp [setProperty, ownProperty, h]
      · simp [setProperty, ownProperty, h, h2, ih]

theorem ownProperty_eq_none (key : String) (d : Directions) :
    ownProperty key d = none ↔ key ∉ keys d := by
  induction d with
  | nil => simp [ownProperty, keys]
  | cons kv rest ih =>
    obtain ⟨k, v⟩ := kv
    by_cases h : k = key
    · simp [ownProperty, keys, h]
    · have ih2 : ownProperty key rest = none ↔ key ∉ List.map Prod.fst rest := ih
      simp [ownProperty, keys, h, ih2, Ne.symm h]

theorem keys_setProperty (key : String) (value : List (Option String)) (d : Directions) :
    keys (setProperty key value d) = if key ∈ keys d then keys d else keys d ++ [key] := by
  induction d with
  | nil => simp [setProperty, keys]
  | cons kv rest ih =>
    obtain ⟨k, v⟩ := kv
    have ih2 : List.map Prod.fst (setProperty key value rest) =
        if key ∈ List.map Prod.fst rest then List.map Prod.fst rest
        else List.map Prod.fst rest ++ [key] := ih
    by_cases h : k = key
    · simp [setProperty, keys, h]
    · by_cases hmem : key ∈ List.map Prod.fst rest
      · simp [setProperty, keys, h, ih2, hmem]
      · simp [setProperty, keys, h, ih2, hmem, Ne.symm h]

theorem keys_setProperty_nodup (key : String) (value : List (Option String))
    (d : Directions) (h : (keys d).Nodup) : (keys (setProperty key value d)).Nodup := by
  rw [keys_setProperty]
  by_cases hmem : key ∈ keys d
  · simpa [hmem] using h
  · simp only [hmem, if_false]
    exact List.Nodup.append h (List.nodup_singleton key) (by simpa using hmem)

/-- The loop of `getMediaDirections` from any object built so far, on
sections whose types are not inherited property names. -/
theorem directionsLoop_spec (media : List Media) (d : Directions)
    (hkeys : ∀ m ∈ media, m.type ∉ objectPrototypeKeys) (hd : (keys d).Nodup) :
    ∃ r, directionsLoop media d = Except.ok r ∧ (keys r).Nodup ∧
      ∀ t, ownProperty t r =
        if directionsOf t media = [] then ownProperty t d
        else some ((ownProperty t d).getD [] ++ directionsOf t media) := by
  induction media generalizing d with
  | nil => exact ⟨d, rfl, hd, fun t => by simp [directionsOf]⟩
  | cons m rest ih =>
    have hm := hkeys m (List.mem_cons_self _ _)
    have hrest := fun x hx => hkeys x (List.mem_cons_of_mem _ hx)
    have hstep : ∀ value, ownProperty m.type d = value →
        ∃ r, directionsLoop rest (setProperty m.type (value.getD [] ++ [m.direction]) d) =
            Except.ok r ∧ (keys r).Nodup ∧
          ∀ t, ownProperty t r =
            if directionsOf t (m :: rest) = [] then ownProperty t d
            else some ((ownProperty t d).getD [] ++ directionsOf t (m :: rest)) := by
      intro value hvalue
      obtain ⟨r, hr, hnodup, hall⟩ := ih (setProperty m.type (value.getD [] ++ [m.direction]) d)
        hrest (keys_setProperty_nodup _ _ d hd)
      refine ⟨r, hr, hnodup, ?_⟩
      intro t
      rw [hall t]
      by_cases ht : m.type = t
      · subst ht
        rw [ownProperty_setProperty, hvalue]
        by_cases hnil : directionsOf m.type rest = [] <;>
          simp [directionsOf, List.filter_cons] at hnil ⊢
      · rw [ownProperty_setProperty_ne _ _ _ _ (Ne.symm ht)]
        simp [directionsOf, List.filter_cons, ht]
    cases hown : ownProperty m.type d with
    | some value =>
      have := hstep (some value) hown
      simpa [directionsLoop, hown] using this
    | none =>
      have := hstep none hown
      simpa [directionsLoop, hown, hm] using this

/-- On an SDP none of whose media types is a property name that plain objects
inherit, `getMediaDirections` returns a mapping whose keys are exactly the
media types of the SDP, each once, and whose value for a type is the list of
the directions of the sections of that type, one per section, in order. -/
theorem getMediaDirections_spec (parsedSdp : ParsedSdp)
    (hkeys : ∀ m ∈ parsedSdp.media, m.type ∉ objectPrototypeKeys) :
    ∃ directions, getMediaDirections parsedSdp = Except.ok directions ∧
      (keys directions).Nodup ∧
      (∀ t, t ∈ keys directions ↔ ∃ m ∈ parsedSdp.media, m.type = t) ∧
      ∀ t, (∃ m ∈ parsedSdp.media, m.type = t) →
        ownProperty t directions = some (directionsOf t parsedSdp.media) := by
  obtain ⟨r, hr, hnodup, hall⟩ := directionsLoop_spec parsedSdp.media [] hkeys (by simp [keys])
  have hnil : ∀ t, directionsOf t parsedSdp.media = [] ↔ ¬ ∃ m ∈ parsedSdp.media, m.type = t := by
    intro t
    simp [directionsOf, List.filter_eq_nil_iff]
  refine ⟨r, hr, hnodup, ?_, ?_⟩
  · intro t
    have h1 := hall t
    by_cases hex : ∃ m ∈ parsedSdp.media, m.type = t
    · have hne : ¬ directionsOf t parsedSdp.media = [] := fun h => (hnil t).mp h hex
      rw [if_neg hne] at h1
      have hmem : t ∈ keys r := by
        by_contra hcon
        rw [(ownProperty_eq_none t r).mpr hcon] at h1
        cases h1
      exact ⟨fun _ => hex, fun _ => hmem⟩
    · have he : directionsOf t parsedSdp.media = [] := (hnil t).mpr hex
      rw [if_pos he] at h1
      have hnot : t ∉ keys r := (ownProperty_eq_none t r).mp (by rw [h1]; rfl)
      exact ⟨fun h => absurd h hnot, fun h => absurd h hex⟩
  · intro t hex
    have hne : ¬ directionsOf t parsedSdp.media = [] := fun h => (hnil t).mp h hex
    have h1 := hall t
    rw [if_neg hne] at h1
    rw [h1]
    simp [ownProperty]

/-- The instance at two audio sections (sendrecv, recvonly) and one video
section (sendonly): the result is `{audio: ["sendrecv", "recvonly"], video:
["sendonly"]}`. -/
theorem getMediaDirections_spec_witness :
    getMediaDirections threeSectionSdp =
        Except.ok [("audio", [some "sendrecv", some "recvonly"]), ("video", [some "sendonly"])] ∧
      ∃ directions, getMediaDirections threeSectionSdp = Except.ok directions ∧
        ownProperty "audio" directions = some [some "sendrecv", some "recvonly"] :=
  ⟨by decide,
    (getMediaDirections_spec threeSectionSdp (by decide)).elim fun directions h =>
      ⟨directions, h.1, h.2.2.2 "audio" (by decide)⟩⟩

/-- C4 fails on a section whose media type is "constructor": `directions` is
a plain object, `directions["constructor"]` is the inherited `Object`
function, which is truthy and has no `concat`, and the call throws a
TypeError instead of returning a mapping. -/
theorem getMediaDirections_inherited_name_example :
    getMediaDirections constructorSdp =
      Except.error (JsError.typeError "(directions[media.type] || []).concat") := by
  decide

/-! ## The feedback filter and the preferred-codec step on their own -/

/-- C2 fails where the preferred codec maps to a payload the m-line does not
list: `indexOf` gives -1, `splice(-1, 1)` removes the last payload, 97, and
the feedback entry for 97, kept by the filter, is left without its payload in
the munged list "98 96". -/
theorem mungeParsed_orphaned_feedback_example :
    mungeParsed asciiEngine unlistedSdp (some "VP8") =
        Except.ok { media := [{ type := "video", payloads := Scalar.str "98 96",
                                rtp := [⟨Scalar.num "98", Scalar.str "VP8"⟩], fmtp := [],
                                rtcpFb := some [⟨Scalar.num "97", "nack"⟩],
                                direction := some "sendrecv" }] } ∧
      jsString (Scalar.num "97") ∉ payloadList (Scalar.str "98 96") := by
  decide

/-- C3 fails on a video section with a single payload, whose payload list
parses to the number 96: VP8 is found at payload 96, `videoMLine.payloads`
has no `split`, and `mungeSdp` throws instead of returning; the same SDP is
munged without error when no codec is preferred.  It fails too where the
preferred payload is 0 (the step is skipped, the list stays "96 0") and where
it is not listed (the last payload is dropped: "96 97" becomes "98 96"). -/
theorem mungeParsed_single_payload_example :
    (∃ m ∈ singlePayloadSdp.media, m.type = "video" ∧
      ∃ r ∈ m.rtp, r.codec = Scalar.str "VP8" ∧ r.payload = Scalar.num "96") ∧
      asciiEngine.toLowerCase "VP8" = asciiEngine.toLowerCase "vp8" ∧
      mungeParsed asciiEngine singlePayloadSdp (some "vp8") =
        Except.error (JsError.typeError "videoMLine.payloads.split") ∧
      mungeParsed asciiEngine singlePayloadSdp none = Except.ok singlePayloadSdp ∧
      mungeParsed asciiEngine payloadZeroSdp (some "vp8") = Except.ok payloadZeroSdp ∧
      (∃ out, mungeParsed asciiEngine unlistedSdp (some "vp8") = Except.ok out ∧
        out.media.map (fun m => payloadList m.payloads) = [["98", "96"]]) := by
  refine ⟨by decide, by decide, by decide, by decide, by decide, ?_⟩
  exact ⟨{ media := [{ type := "video", payloads := Scalar.str "98 96",
                       rtp := [⟨Scalar.num "98", Scalar.str "VP8"⟩], fmtp := [],
                       rtcpFb := some [⟨Scalar.num "97", "nack"⟩],
                       direction := some "sendrecv" }] }, by decide, by decide⟩

/-- A payload type that the parser left a string is never found in the
parsed list: with `a=rtpmap:096 VP8/90000` every munging drops the last
payload and puts "096" in front, "96 97 98" becoming "096 96 97" and then
"096 96 96". -/
theorem mungeParsed_string_payload_example :
    mungeParsed asciiEngine stringPayloadSdp (some "vp8") =
        Except.ok { media := [{ type := "video", payloads := Scalar.str "096 96 97",
                                rtp := [⟨Scalar.str "096", Scalar.str "VP8"⟩], fmtp := [],
                                rtcpFb := none, direction := some "sendrecv" }] } ∧
      mungeParsed asciiEngine
          { media := [{ type := "video", payloads := Scalar.str "096 96 97",
                        rtp := [⟨Scalar.str "096", Scalar.str "VP8"⟩], fmtp := [],
                        rtcpFb := none, direction := some "sendrecv" }] } (some "vp8") =
        Except.ok { media := [{ type := "video", payloads := Scalar.str "096 96 96",
                                rtp := [⟨Scalar.str "096", Scalar.str "VP8"⟩], fmtp := [],
                                rtcpFb := none, direction := some "sendrecv" }] } := by
  decide

theorem preferredStep_map_rtcpFb (d : Option String) (l : List Media) :
    (preferredStep d l).map (fun m => m.rtcpFb) = l.map (fun m => m.rtcpFb) := by
  cases d with
  | none => rfl
  | some s => exact map_updateFirst isVideo (setPayloads s) (fun m => m.rtcpFb) (fun _ => rfl) l

theorem h264Step_map_filtered (d : Option Fmtp) (l : List Media) :
    (h264Step d l).map (fun m => (filterRtcpFb m).rtcpFb) =
      l.map (fun m => (filterRtcpFb m).rtcpFb) := by
  cases d with
  | none => rfl
  | some f =>
    exact map_updateFirst isH264Video (appendFmtp f) (fun m => (filterRtcpFb m).rtcpFb)
      (fun _ => rfl) l

/-- Whenever `mungeSdp` returns, the feedback of each section is the input's
feedback restricted, in order, to the entries whose payload is in the
section's payload list as parsed (and absent where it was absent); without a
preferred codec every entry that remains references a payload of the
section's munged payload list. -/
theorem mungeParsed_filters_rtcpFb (engine : Engine) (sdp out : ParsedSdp)
    (preferredCodec : Option String)
    (hout : mungeParsed engine sdp preferredCodec = Except.ok out) :
    out.media.map (fun m => m.rtcpFb) =
        sdp.media.map (fun m => m.rtcpFb.map fun fb =>
          fb.filter fun item => decide (jsString item.payload ∈ payloadList m.payloads)) ∧
      (preferredCodec = none → ∀ m ∈ out.media, ∀ fb, m.rtcpFb = some fb →
        ∀ item ∈ fb, jsString item.payload ∈ payloadList m.payloads) := by
  obtain ⟨dF, dP, _, hP, hres⟩ := (mungeParsed_ok_iff engine sdp out preferredCodec).mp hout
  constructor
  · rw [hres, preferredStep_map_rtcpFb]
    have h2 : (fixRtcpFb (h264Step dF sdp.media)).map (fun m => m.rtcpFb) =
        (h264Step dF sdp.media).map (fun m => (filterRtcpFb m).rtcpFb) := by
      simp [fixRtcpFb, List.map_map, Function.comp_def]
    rw [h2, h264Step_map_filtered]
    rfl
  · intro hnone m hm fb hfb item hitem
    subst hnone
    simp only [preferredDecisionOpt, Except.ok.injEq] at hP
    subst hP
    rw [hres] at hm
    obtain ⟨m0, _, hm0⟩ := List.mem_map.mp hm
    subst hm0
    cases hfb0 : m0.rtcpFb with
    | none => simp [filterRtcpFb, hfb0] at hfb
    | some fb0 =>
      simp only [filterRtcpFb, hfb0, Option.map_some', Option.some.injEq] at hfb
      rw [← hfb] at hitem
      simpa using (List.mem_filter.mp hitem).2

/-- The instance at `usualSdp` with H264 preferred: of the video section's
feedback for 96, 120, `*` and 102, the entries for 96 and 102 remain. -/
theorem mungeParsed_filters_rtcpFb_witness :
    usualSdpMunged.media.map (fun m => m.rtcpFb) =
      [some [⟨Scalar.num "111", "transport-cc"⟩],
       some [⟨Scalar.num "96", "nack"⟩, ⟨Scalar.num "102", "nack"⟩]] :=
  (mungeParsed_filters_rtcpFb asciiEngine usualSdp usualSdpMunged (some "h264")
    (by decide)).1.trans (by decide)

/-! ## The preferred-codec step on a well-formed payload list -/

theorem indexOf_spec {α : Type} [DecidableEq α] (x : α) (xs : List α) (h : x ∈ xs) :
    ∃ k : Nat, indexOf x xs = Int.ofNat k ∧ k < xs.length ∧ xs.eraseIdx k = xs.erase x := by
  induction xs with
  | nil => simp at h
  | cons y ys ih =>
    by_cases hy : y = x
    · exact ⟨0, by simp [indexOf, hy], by simp, by simp [hy]⟩
    · have hmem : x ∈ ys := by
        rcases List.mem_cons.mp h with h1 | h1
        · exact absurd h1.symm hy
        · exact h1
      obtain ⟨k, hk, hlt, herase⟩ := ih hmem
      refine ⟨k + 1, ?_, by simpa using hlt, ?_⟩
      · simp only [indexOf, hy, if_false, hk]
      · rw [List.eraseIdx_cons_succ, herase, List.erase_cons_tail (by simpa using hy)]

theorem splice1_indexOf {α : Type} [DecidableEq α] (x : α) (xs : List α) (h : x ∈ xs) :
    splice1 xs (indexOf x xs) = xs.erase x := by
  obtain ⟨k, hk, hlt, herase⟩ := indexOf_spec x xs h
  rw [hk, ← herase]
  unfold splice1
  have h1 : ¬ (Int.ofNat k < 0) := by simp
  have h2 : min (Int.ofNat k) (xs.length : Int) = Int.ofNat k := by
    apply min_eq_left
    exact Int.ofNat_le.mpr (Nat.le_of_lt hlt)
  simp only [h1, if_false, h2]
  rfl

theorem splitChars_payloadString (ps : List Nat) (hne : ps ≠ []) :
    splitChars (payloadString ps).data = ps.map natChars := by
  show splitChars (joinChars (ps.map natChars)) = _
  apply splitChars_joinChars
  · simpa using hne
  · intro w hw
    obtain ⟨n, _, hn⟩ := List.mem_map.mp hw
    rw [← hn]
    exact natChars_no_space n

/-- On the payload string of the payload types `ps`, all below 2^53 and one
of them `q`, lines 136-141 give the payload string of `q` followed by `ps`
without its first `q`. -/
theorem reorderPayloads_listed (engine : Engine) (q : Nat) (ps : List Nat) (hq : q ∈ ps)
    (hexact : ∀ n ∈ ps, n < exactLimit) :
    reorderPayloads engine (Scalar.num (natText q)) (payloadString ps) =
      payloadString (q :: ps.erase q) := by
  have hne : ps ≠ [] := List.ne_nil_of_mem hq
  have hparse : (splitChars (payloadString ps).data).map (parseInt engine) =
      ps.map natChars := by
    rw [splitChars_payloadString ps hne, List.map_map]
    exact List.map_congr_left (fun n hn => parseInt_natChars engine n (hexact n hn))
  have hmem : natChars q ∈ ps.map natChars := List.mem_map.mpr ⟨q, hq, rfl⟩
  show String.mk (joinChars ((jsString (Scalar.num (natText q))).data :: splice1
    ((splitChars (payloadString ps).data).map (parseInt engine))
    (indexOfNumber (Scalar.num (natText q))
      ((splitChars (payloadString ps).data).map (parseInt engine))))) = _
  rw [hparse, indexOfNumber_natText, splice1_indexOf _ _ hmem,
    ← List.map_erase natChars_injective]
  rfl

theorem preferredPayload_append (engine : Engine) (c : String) (earlier : List Rtp) (r : Rtp)
    (later : List Rtp) (codec : String)
    (hearlier : ∀ x ∈ earlier, truthy x.codec = false ∨
      ∃ name, x.codec = Scalar.str name ∧ engine.toLowerCase name ≠ engine.toLowerCase c)
    (hcodec : r.codec = Scalar.str codec) (hne : codec ≠ "")
    (hmatch : engine.toLowerCase codec = engine.toLowerCase c) :
    preferredPayload engine c (earlier ++ r :: later) = Except.ok (some r.payload) := by
  induction earlier with
  | nil =>
    simp [preferredPayload, hcodec, truthy, hne, hmatch]
  | cons x rest ih =>
    have hrest := ih (fun y hy => hearlier y (List.mem_cons_of_mem _ hy))
    rcases hearlier x (List.mem_cons_self _ _) with hx | ⟨name, hname, hdiff⟩
    · simp [preferredPayload, hx, hrest]
    · by_cases ht : truthy (Scalar.str name) = true
      · simp [preferredPayload, hname, ht, hdiff, hrest]
      · simp [preferredPayload, hname, ht, hrest]

/-- On a well-formed video section the preferred codec moves to the front:
let `v` be the first video section, let its payload list be the string of the
payload types `ps`, all below 2^53, let `r` be the first rtp entry of `v`
whose codec equals the preferred codec ignoring case, the entries before it
having a falsy codec or a codec name that does not match, and let the
payload of `r` be a non-zero number that is one of `ps`.  Then, if `mungeSdp`
returns without a preferred codec, it returns with this one, the payload
list of `v` becomes that payload followed by `ps` without its first
occurrence of it, in the original order (a permutation of `ps`), and the
payload lists of the other sections stay as they were. -/
theorem mungeParsed_moves_preferred_first (engine : Engine)
    (before : List Media) (v : Media) (after : List Media) (c : String)
    (earlier : List Rtp) (r : Rtp) (later : List Rtp) (codec : String) (q : Nat)
    (ps : List Nat) (hbefore : ∀ m ∈ before, m.type ≠ "video") (hvideo : v.type = "video")
    (hpayloads : v.payloads = Scalar.str (payloadString ps))
    (hexact : ∀ n ∈ ps, n < exactLimit)
    (hrtp : v.rtp = earlier ++ r :: later)
    (hearlier : ∀ x ∈ earlier, truthy x.codec = false ∨
      ∃ name, x.codec = Scalar.str name ∧ engine.toLowerCase name ≠ engine.toLowerCase c)
    (hcodec : r.codec = Scalar.str codec) (hne : codec ≠ "")
    (hmatch : engine.toLowerCase codec = engine.toLowerCase c)
    (hq : r.payload = Scalar.num (natText q)) (hlisted : q ∈ ps) (hzero : q ≠ 0)
    (hplain : ∃ plain, mungeParsed engine { media := before ++ v :: after } none =
      Except.ok plain) :
    ∃ out, mungeParsed engine { media := before ++ v :: after } (some c) = Except.ok out ∧
      out.media.map (fun m => m.payloads) =
        before.map (fun m => m.payloads) ++
          Scalar.str (payloadString (q :: ps.erase q)) ::
          after.map (fun m => m.payloads) ∧
      payloadList (Scalar.str (payloadString (q :: ps.erase q))) =
        (q :: ps.erase q).map natText ∧
      (q :: ps.erase q).Perm ps := by
  have hb : ∀ x ∈ before, isVideo x = false := fun x hx => by
    simpa [isVideo] using hbefore x hx
  have hv : isVideo v = true := by simp [isVideo, hvideo]
  have hfind := find_append isVideo before v after hb hv
  have hpref : preferredPayload engine c v.rtp = Except.ok (some (Scalar.num (natText q))) := by
    rw [hrtp, preferredPayload_append engine c earlier r later codec hearlier hcodec hne hmatch,
      hq]
  have hdec : preferredDecisionOpt engine (some c) (before ++ v :: after) =
      Except.ok (some (payloadString (q :: ps.erase q))) := by
    simp only [preferredDecisionOpt, preferredDecision, hfind, preferredPayloads, hpref,
      truthy_natText q hzero, if_true, hpayloads]
    rw [reorderPayloads_listed engine q ps hlisted hexact]
  obtain ⟨plain, hplain⟩ := hplain
  obtain ⟨dF, _, hF, _, _⟩ := (mungeParsed_ok_iff engine _ plain none).mp hplain
  refine ⟨_, (mungeParsed_ok_iff engine _ _ (some c)).mpr ⟨dF, _, hF, hdec, rfl⟩, ?_, ?_,
    (List.perm_cons_erase hlisted).symm⟩
  · show (updateFirst isVideo (setPayloads _) (fixRtcpFb (h264Step dF (before ++ v :: after)))).map
      (fun m => m.payloads) = _
    rw [map_payloads_setPayloads_fixRtcpFb]
    have hB := preferredStep_h264Step (some (payloadString (q :: ps.erase q))) dF
      (before ++ v :: after)
    simp only [preferredStep] at hB
    rw [hB, h264Step_map_payloads, updateFirst_append isVideo _ before v after hb hv]
    simp [setPayloads]
  · show (splitChars (payloadString (q :: ps.erase q)).data).map String.mk = _
    rw [splitChars_payloadString _ (by simp), List.map_map]
    rfl

/-- The instance at `usualSdp` (payload list "96 97 102") with H264, payload
102, preferred: the list becomes "102 96 97". -/
theorem mungeParsed_moves_preferred_first_witness :
    ∃ out, mungeParsed asciiEngine usualSdp (some "h264") = Except.ok out ∧
      out.media.map (fun m => payloadList m.payloads) = [["111", "0"], ["102", "96", "97"]] :=
  have hearlier : ∀ x ∈ [(⟨Scalar.num "96", Scalar.str "VP8"⟩ : Rtp),
      ⟨Scalar.num "97", Scalar.str "rtx"⟩], truthy x.codec = false ∨
      ∃ name, x.codec = Scalar.str name ∧
        asciiEngine.toLowerCase name ≠ asciiEngine.toLowerCase "h264" := by
    intro x hx
    simp only [List.mem_cons, List.mem_singleton, List.not_mem_nil, or_false] at hx
    rcases hx with hx | hx
    · exact Or.inr ⟨"VP8", by rw [hx], by decide⟩
    · exact Or.inr ⟨"rtx", by rw [hx], by decide⟩
  (mungeParsed_moves_preferred_first asciiEngine [usualAudio] usualVideo [] "h264"
    [⟨Scalar.num "96", Scalar.str "VP8"⟩, ⟨Scalar.num "97", Scalar.str "rtx"⟩]
    ⟨Scalar.num "102", Scalar.str "H264"⟩ [] "H264" 102 [96, 97, 102]
    (by decide) (by decide) (by decide) (by decide) (by decide) hearlier rfl (by decide)
    (by decide) (by decide) (by decide) (by decide)
    ⟨_, (by decide : mungeParsed asciiEngine usualSdp none = Except.ok
      { media := [usualAudio, appendFmtp (canonicalFmtp (Scalar.num "102"))
        (filterRtcpFb usualVideo)] })⟩).elim fun out h =>
      ⟨out, h.1, by
        have h2 := congrArg (List.map payloadList) h.2.1
        rw [List.map_map] at h2
        exact h2.trans (by decide)⟩

end SylkUtils
